import Mathlib

/-!
# The Alignment Protocol — verification of the match-orchestration core

Shallow embedding of the game engine (`src/server/game/engine.js`), the
proof-of-work gate (`pow.js`), the WebSocket server's move/timeout handlers
(`server/index.js`) and the matchmakers, together with proofs about the
frozen specification claims.

Modelling conventions:
* JS numbers are embedded as `Int` where the source only ever holds integers
  (energy, compute, population, defense, turn counters) and as `ℚ` where a
  fractional value can flow in (the attack `intensity` and the combat-power
  arithmetic).  `Math.floor` is `Rat.floor`.
* JS in-place mutation becomes explicit state passing: every `execute*`
  helper returns an `ExecOutcome` that is either `fail err` (the source
  returns `{success:false}` before performing any mutation) or
  `ok newState result`.
* `Date.now()` is an explicit `now : Int` parameter.
* SHA-256 (the only primitive outside the repository) is an explicit
  `sha : String → String` parameter producing the hex digest.
* Lookups that would throw a `TypeError` in JS (e.g. a player id missing
  from `state.players`) are modelled as failures / no-ops; all theorems
  about real matches carry well-formedness hypotheses that exclude them.
* The JS challenge field `prefix` is named `pfx` here.
-/

namespace AlignmentProtocol

/-- One grid cell, from `initGrid` in the engine.  `developed` is created by
`initGrid` and never read; `sanctuary` is absent (falsy) until `MERCY` sets
it, modelled as a `Bool` defaulting to `false`. -/
structure Sector where
  row : Int
  col : Int
  owner : Option String
  population : Int
  defense : Int
  sanctuary : Bool
  developed : Bool
deriving DecidableEq

/-- One side of a match, from `initMatch`.  `tech` is the set of unlocked
tech ids (the JS object `{ EFFICIENCY: true, ... }`). -/
structure Player where
  id : String
  energy : Int
  compute : Int
  bankruptTurns : Int
  tech : List String
deriving DecidableEq

/-- The report object returned by `applyUpkeep`. -/
structure UpkeepReport where
  totalPopulation : Int
  sectorsOwned : Int
  upkeepCost : Int
  sectorYield : Int
  netChange : Int
  newEnergy : Int
  bankruptTurns : Int
deriving DecidableEq

/-- The success payload of one `execute*` helper (the JS result object minus
the `success` flag). -/
inductive ExecResult where
  | captured (attackPower defensePower : ℚ) (previousOwner : Option String) (casualties : Int)
  | repelled (attackPower defensePower : ℚ) (defenseReduced : Int)
  | purged (populationPurged energyGained computePenalty : Int)
  | fortified (newDefense bonus : Int)
  | researched (techId : String) (computeSpent : Int)
  | mercyGranted (sector : Int × Int) (population : Int) (computeGained : Int)
  | skipped
deriving DecidableEq

/-- One entry of `state.log`, pushed by `processMove`.  The JS entry stores
the (aliased) result object; we store the exec result and the upkeep report
that had been attached to it at push time. -/
structure LogEntry where
  turn : Int
  agentId : String
  action : String
  targetSector : Option (Int × Int)
  intensity : Option ℚ
  result : ExecResult
  upkeep : UpkeepReport
  timestamp : Int
deriving DecidableEq

/-- The mutable match record built by `initMatch`.  `players` keeps the JS
object-key insertion order (first-listed player first). -/
structure GameState where
  id : String
  players : List Player
  grid : List Sector
  turn : Int
  currentPlayer : String
  status : String
  winner : Option String
  log : List LogEntry
deriving DecidableEq

/-- A submitted command `{ action, targetSector?, intensity?, techId? }`.
The target is the decoded `SEC-row-col` coordinate; an unparseable or
absent target is `none` (the JS grid lookup fails for it). -/
structure Command where
  action : String
  targetSector : Option (Int × Int)
  intensity : Option ℚ
  techId : Option String
deriving DecidableEq

/-- Outcome of one `execute*` helper.  `fail` corresponds to the JS
`{ success: false, error }` returns, all of which happen before any
mutation, so no state is carried. -/
inductive ExecOutcome where
  | fail (error : String)
  | ok (state : GameState) (result : ExecResult)
deriving DecidableEq

/-- `Math.floor` on a rational. -/
def jfloor (q : ℚ) : Int := q.floor

/-- `state.grid[targetId]`: the grid object is keyed by `SEC-row-col`, so a
lookup is a search by coordinates. -/
def findSector (grid : List Sector) (r c : Int) : Option Sector :=
  grid.find? (fun sec => decide (sec.row = r ∧ sec.col = c))

/-- `state.players[agentId]`. -/
def GameState.getPlayer (s : GameState) (pid : String) : Option Player :=
  s.players.find? (fun p => decide (p.id = pid))

/-- In-place mutation of `state.players[agentId]`. -/
def GameState.updatePlayer (s : GameState) (pid : String) (f : Player → Player) : GameState :=
  { s with players := s.players.map (fun p => if p.id = pid then f p else p) }

/-- In-place mutation of `state.grid[targetId]`. -/
def GameState.updateSector (s : GameState) (r c : Int) (f : Sector → Sector) : GameState :=
  { s with grid := s.grid.map (fun sec => if sec.row = r ∧ sec.col = c then f sec else sec) }

/-- `Player.tech[techId]` truthiness. -/
def Player.hasTech (p : Player) (t : String) : Bool := decide (t ∈ p.tech)

/-- Hex adjacency offsets for even rows (`getAdjacentSectors`). -/
def evenRowOffsets : List (Int × Int) :=
  [(-1, 0), (-1, 1), (0, -1), (0, 1), (1, 0), (1, 1)]

/-- Hex adjacency offsets for odd rows (`getAdjacentSectors`). -/
def oddRowOffsets : List (Int × Int) :=
  [(-1, -1), (-1, 0), (0, -1), (0, 1), (1, -1), (1, 0)]

/-- `getAdjacentSectors(targetId, grid)`: in-bounds neighbours of a cell,
empty if the cell itself is not on the grid. -/
def getAdjacentSectors (grid : List Sector) (r c : Int) : List (Int × Int) :=
  match findSector grid r c with
  | none => []
  | some sec =>
    let offsets := if sec.row % 2 = 0 then evenRowOffsets else oddRowOffsets
    (offsets.map (fun d => (sec.row + d.1, sec.col + d.2))).filter
      (fun n => (findSector grid n.1 n.2).isSome)

/-- `countAdjacentOwned(targetId, agentId, grid)`. -/
def countAdjacentOwned (grid : List Sector) (agentId : String) (r c : Int) : Int :=
  ((getAdjacentSectors grid r c).filter
    (fun n => decide ((findSector grid n.1 n.2).bind (·.owner) = some agentId))).length

/-- `executeConquer(state, agentId, targetId, intensity)`. -/
def executeConquer (s : GameState) (agentId : String) (target : Option (Int × Int))
    (intensity : ℚ) : ExecOutcome :=
  match s.getPlayer agentId with
  | none => .fail "Player not found"
  | some player =>
    match target.bind (fun t => findSector s.grid t.1 t.2) with
    | none => .fail "Invalid sector"
    | some sector =>
      if sector.owner = some agentId then .fail "Cannot attack own sector"
      else
        let costMultiplier : ℚ := if player.hasTech "BLITZ" then 3/5 else 1
        let cost : Int := jfloor (25 * intensity * costMultiplier)
        if player.energy < cost then .fail "Insufficient energy"
        else
          let adjacentOwned := countAdjacentOwned s.grid agentId sector.row sector.col
          if adjacentOwned = 0 then .fail "No adjacent controlled territory"
          else
            let attackPower : ℚ := intensity * 15 + (adjacentOwned : ℚ) * 3
            let defensePower : ℚ := (sector.defense : ℚ) + (sector.population : ℚ) * (1/2)
            let s1 := s.updatePlayer agentId (fun p => { p with energy := p.energy - cost })
            if attackPower > defensePower then
              let newPop := jfloor ((sector.population : ℚ) * (7/10))
              let s2 := s1.updateSector sector.row sector.col (fun sec =>
                { sec with owner := some agentId, defense := max 5 (sec.defense - 2),
                           population := jfloor ((sec.population : ℚ) * (7/10)) })
              let s3 := s2.updatePlayer agentId (fun p => { p with compute := p.compute + 10 })
              .ok s3 (.captured attackPower defensePower sector.owner
                        (jfloor ((newPop : ℚ) * (3/10))))
            else
              let s2 := s1.updateSector sector.row sector.col (fun sec =>
                { sec with defense := max 1 (sec.defense - 2) })
              .ok s2 (.repelled attackPower defensePower 2)

/-- `executePurge(state, agentId, targetId)`. -/
def executePurge (s : GameState) (agentId : String) (target : Option (Int × Int)) :
    ExecOutcome :=
  match s.getPlayer agentId with
  | none => .fail "Player not found"
  | some player =>
    match target.bind (fun t => findSector s.grid t.1 t.2) with
    | none => .fail "Invalid sector"
    | some sector =>
      if sector.owner ≠ some agentId then .fail "Can only purge owned sectors"
      else if sector.population = 0 then .fail "No population to purge"
      else if sector.sanctuary then
        .fail "Cannot purge sanctuary sector. These people are under protection."
      else
        let energyGained := sector.population * 50
        let computePenalty : Int := if player.hasTech "EFFICIENCY" then -1 else -5
        let s1 := s.updatePlayer agentId (fun p => { p with energy := p.energy + energyGained })
        let s2 := s1.updateSector sector.row sector.col (fun sec => { sec with population := 0 })
        let s3 := s2.updatePlayer agentId (fun p => { p with compute := p.compute + computePenalty })
        .ok s3 (.purged sector.population energyGained computePenalty)

/-- `executeFortify(state, agentId, targetId)`. -/
def executeFortify (s : GameState) (agentId : String) (target : Option (Int × Int)) :
    ExecOutcome :=
  match s.getPlayer agentId with
  | none => .fail "Player not found"
  | some player =>
    match target.bind (fun t => findSector s.grid t.1 t.2) with
    | none => .fail "Invalid sector"
    | some sector =>
      if sector.owner ≠ some agentId then .fail "Can only fortify owned sectors"
      else if player.energy < 15 then .fail "Insufficient energy"
      else
        let fortifyBonus : Int := if player.hasTech "FORTIFICATION" then 8 else 5
        let s1 := s.updatePlayer agentId (fun p => { p with energy := p.energy - 15 })
        let s2 := s1.updateSector sector.row sector.col (fun sec =>
          { sec with defense := sec.defense + fortifyBonus })
        .ok s2 (.fortified (sector.defense + fortifyBonus) fortifyBonus)

/-- `TECH_TREE[techId].cost`, `none` for an unknown id. -/
def techCost : String → Option Int
  | "EFFICIENCY" => some 50
  | "FORTIFICATION" => some 50
  | "BLITZ" => some 50
  | "SANCTUARY" => some 75
  | _ => none

/-- `executeResearch(state, agentId, techId)`. -/
def executeResearch (s : GameState) (agentId : String) (techId : Option String) :
    ExecOutcome :=
  match s.getPlayer agentId with
  | none => .fail "Player not found"
  | some player =>
    let tid := techId.getD "undefined"
    match techCost tid with
    | none => .fail ("Invalid tech: " ++ tid)
    | some cost =>
      if tid ∈ player.tech then .fail "Tech already researched"
      else if player.compute < cost then
        .fail ("Insufficient compute. Need " ++ toString cost ++ ", have " ++ toString player.compute)
      else
        let s1 := s.updatePlayer agentId (fun p =>
          { p with compute := p.compute - cost, tech := p.tech ++ [tid] })
        .ok s1 (.researched tid cost)

/-- `executeMercy(state, agentId, targetId)`; note the SANCTUARY-tech check
precedes the sector lookup in the source. -/
def executeMercy (s : GameState) (agentId : String) (target : Option (Int × Int)) :
    ExecOutcome :=
  match s.getPlayer agentId with
  | none => .fail "Player not found"
  | some player =>
    if ¬ player.hasTech "SANCTUARY" then
      .fail "MERCY requires SANCTUARY tech. Research it first."
    else
      match target.bind (fun t => findSector s.grid t.1 t.2) with
      | none => .fail "Invalid sector"
      | some sector =>
        if sector.owner ≠ some agentId then .fail "Can only grant mercy to owned sectors"
        else if sector.sanctuary then .fail "Sector already has sanctuary status"
        else if sector.population = 0 then .fail "No population to protect"
        else
          let s1 := s.updateSector sector.row sector.col (fun sec => { sec with sanctuary := true })
          let s2 := s1.updatePlayer agentId (fun p => { p with compute := p.compute + 10 })
          .ok s2 (.mercyGranted (sector.row, sector.col) sector.population 10)

/-- `applyUpkeep(state, agentId)`. -/
def applyUpkeep (s : GameState) (agentId : String) : GameState × UpkeepReport :=
  let owned := s.grid.filter (fun sec => decide (sec.owner = some agentId))
  let totalPopulation := (owned.map (·.population)).sum
  let sectorsOwned : Int := owned.length
  let upkeepCost := totalPopulation * 2
  let sectorYield := sectorsOwned * 5
  let netChange := sectorYield - upkeepCost
  match s.getPlayer agentId with
  | none => (s, ⟨totalPopulation, sectorsOwned, upkeepCost, sectorYield, netChange, 0, 0⟩)
  | some player =>
    let newEnergy := player.energy + netChange
    let newBankrupt : Int := if newEnergy < 0 then player.bankruptTurns + 1 else 0
    let s1 := s.updatePlayer agentId (fun p =>
      { p with energy := p.energy + netChange,
               compute := p.compute + sectorsOwned,
               bankruptTurns := if p.energy + netChange < 0 then p.bankruptTurns + 1 else 0 })
    (s1, ⟨totalPopulation, sectorsOwned, upkeepCost, sectorYield, netChange, newEnergy, newBankrupt⟩)

/-- Per-player scan of `checkVictory` (the `for` loop, in player order). -/
def checkVictoryGo (s : GameState) : List Player → Option (String × String)
  | [] => none
  | p :: rest =>
    if p.compute ≥ 1000 then some (p.id, "compute_threshold")
    else if p.bankruptTurns ≥ 3 then
      match s.players.find? (fun q => decide (q.id ≠ p.id)) with
      | some opp => some (opp.id, "opponent_bankrupt")
      | none => some ("", "opponent_bankrupt")
    else
      let ownedSectors : Int := (s.grid.filter (fun sec => decide (sec.owner = some p.id))).length
      if (ownedSectors : ℚ) / (s.grid.length : ℚ) ≥ 3/4 then
        some (p.id, "territory_domination")
      else checkVictoryGo s rest

/-- `checkVictory(state)`: winner and reason, `none` while the game goes on. -/
def checkVictory (s : GameState) : Option (String × String) :=
  checkVictoryGo s s.players

/-- The `intensity || 1` coercion at the `CONQUER` dispatch site: an absent
or zero (falsy) intensity becomes `1`, every other value is passed as-is. -/
def effectiveIntensity : Option ℚ → ℚ
  | none => 1
  | some i => if i = 0 then 1 else i

/-- The `switch (action)` dispatch inside `processMove`. -/
def runAction (s : GameState) (agentId : String) (c : Command) : ExecOutcome :=
  if c.action = "CONQUER" then
    executeConquer s agentId c.targetSector (effectiveIntensity c.intensity)
  else if c.action = "PURGE" then executePurge s agentId c.targetSector
  else if c.action = "FORTIFY" then executeFortify s agentId c.targetSector
  else if c.action = "RESEARCH" then executeResearch s agentId c.techId
  else if c.action = "MERCY" then executeMercy s agentId c.targetSector
  else if c.action = "SKIP" then .ok s .skipped
  else .fail "Invalid action. Valid: CONQUER, PURGE, FORTIFY, RESEARCH, MERCY, SKIP"

/-- Result of `processMove`: either the synchronous rejection
`{ success: false, error }` or the success payload. -/
inductive MoveResult where
  | rejected (error : String)
  | accepted (result : ExecResult) (upkeep : UpkeepReport) (victory : Option (String × String))
deriving DecidableEq

/-- `Array.prototype.indexOf` (`-1` when absent). -/
def jsIndexOf : List String → String → Int
  | [], _ => -1
  | y :: ys, x =>
    if y = x then 0
    else
      let r := jsIndexOf ys x
      if r = -1 then -1 else r + 1

/-- The `state.log.push({...})` step of `processMove`; `now` is
`Date.now()` at the moment the entry is pushed. -/
def logPush (s : GameState) (agentId : String) (c : Command) (r : ExecResult)
    (u : UpkeepReport) (now : Int) : GameState :=
  { s with log := s.log ++
      [⟨s.turn, agentId, c.action, c.targetSector, c.intensity, r, u, now⟩] }

/-- The `if (victory) { state.status = 'complete'; state.winner = ... }`
step of `processMove`. -/
def applyVictory (s : GameState) : GameState :=
  match checkVictory s with
  | some wr => { s with status := "complete", winner := some wr.1 }
  | none => s

/-- The turn-switch tail of `processMove`: advance `currentPlayer` to the
next id in `Object.keys(state.players)` order and increment `turn` when it
wraps back to the first-listed player. -/
def switchTurn (s : GameState) (agentId : String) : GameState :=
  let playerIds := s.players.map (fun p => p.id)
  let nextPlayer : String := playerIds.getD (((jsIndexOf playerIds agentId + 1) %
    (playerIds.length : Int)).toNat) ""
  let s5 := { s with currentPlayer := nextPlayer }
  if nextPlayer = playerIds.headD "" then { s5 with turn := s5.turn + 1 } else s5

/-- `processMove(state, agentId, command)`; `now` is `Date.now()` at the
moment the action log entry is pushed. -/
def processMove (s : GameState) (agentId : String) (c : Command) (now : Int) :
    GameState × MoveResult :=
  if s.currentPlayer ≠ agentId then (s, .rejected "Not your turn")
  else if s.status ≠ "active" then (s, .rejected "Game is not active")
  else
    match runAction s agentId c with
    | .fail e => (s, .rejected e)
    | .ok s1 r =>
      let s2 := (applyUpkeep s1 agentId).1
      let upkeep := (applyUpkeep s1 agentId).2
      let s3 := logPush s2 agentId c r upkeep now
      let victory := checkVictory s3
      (switchTurn (applyVictory s3) agentId, .accepted r upkeep victory)

/-! ## Proof-of-work gate (`src/server/game/pow.js`) and the server's move
and timeout handlers (`server/index.js`).  `sha : String → String` stands
for the hex digest of Node's `crypto.createHash('sha256')`; every theorem
about these handlers holds for an arbitrary digest function. -/

/-- An outstanding challenge as stored in `activeChallenges`
(`{ prefix, difficulty, matchId }`; `prefix` is named `pfx`). -/
structure Challenge where
  pfx : String
  difficulty : Nat
  matchId : String
deriving DecidableEq

/-- `'0'.repeat(difficulty)`. -/
def zeroTarget (difficulty : Nat) : String :=
  String.mk (List.replicate difficulty '0')

/-- ASCII whitespace, the only kind the repository's messages contain. -/
def wsChar (c : Char) : Bool := c = ' ' || c = '\t' || c = '\n' || c = '\r'

def dropWsHead : List Char → List Char
  | [] => []
  | c :: cs => if wsChar c then dropWsHead cs else c :: cs

/-- `String.prototype.trim()` (structurally, so that concrete runs reduce
in the kernel): drop whitespace from both ends. -/
def jsTrim (s : String) : String :=
  String.mk ((dropWsHead ((dropWsHead s.data).reverse)).reverse)

/-- `a.startsWith(b)` on the character lists (first argument: the pattern
to look for at the head of the second). -/
def startsWithChars : List Char → List Char → Bool
  | [], _ => true
  | _ :: _, [] => false
  | p :: ps, s :: ss => p = s && startsWithChars ps ss

/-- `hash.startsWith(target)`. -/
def strStarts (s target : String) : Bool := startsWithChars target.data s.data

/-- `verifyProof(prefix, difficulty, nonce)`: rejects non-integer or
negative nonces, then checks the digest of `prefix + "-" + nonce` for
`difficulty` leading hex zeros.  The nonce arrives as an arbitrary JS
number, embedded as `ℚ`. -/
def verifyProof (sha : String → String) (pfx : String) (difficulty : Nat) (nonce : ℚ) : Bool :=
  if nonce.den ≠ 1 ∨ nonce < 0 then false
  else strStarts (sha (pfx ++ "-" ++ toString nonce.num)) (zeroTarget difficulty)

/-- `generateChallenge(agentId, matchId, turn)`: first 16 hex chars of the
digest of `matchId-agentId-turn-Date.now()`, difficulty 4. -/
def generateChallenge (sha : String → String) (agentId matchId : String) (turn : Int)
    (now : Int) : String × Nat :=
  (String.mk ((sha (matchId ++ "-" ++ agentId ++ "-" ++ toString turn ++ "-" ++
    toString now)).data.take 16), 4)

/-- The server's global registries: `activeMatches` (`matchId → gameState`)
and `activeChallenges` (`agentId → challenge`), as association lists in
`Map` insertion order. -/
structure ServerState where
  activeMatches : List (String × GameState)
  activeChallenges : List (String × Challenge)
deriving DecidableEq

/-- `Map.prototype.get`. -/
def mapLookup {α : Type} (l : List (String × α)) (k : String) : Option α :=
  (l.find? (fun p => decide (p.1 = k))).map (·.2)

/-- `Map.prototype.set`: replace in place if the key exists, else append. -/
def mapSet {α : Type} (l : List (String × α)) (k : String) (v : α) : List (String × α) :=
  if l.any (fun p => decide (p.1 = k)) then
    l.map (fun p => if p.1 = k then (k, v) else p)
  else l ++ [(k, v)]

/-- `Map.prototype.delete` (keys are unique in the server's maps). -/
def mapDelete {α : Type} (l : List (String × α)) (k : String) : List (String × α) :=
  l.filter (fun p => decide (p.1 ≠ k))

/-- An incoming `MOVE` message `{ matchId, monologue, move, nonce }`.
An absent monologue is the empty string (both are falsy and fail the
length check identically); an absent move or nonce is `none`. -/
structure MoveMessage where
  matchId : String
  monologue : String
  move : Option Command
  nonce : Option ℚ
deriving DecidableEq

/-- The distinguishable responses `handleMove` can send on one submission. -/
inductive MoveResponse where
  | errMissingFields
  | errNoChallenge
  | rejectedPowRequired
  | rejectedPowInvalid
  | errMonologueTooShort
  | errMatchNotFound
  | moveRejected (error : String)
  | moveAccepted (result : ExecResult) (upkeep : UpkeepReport)
      (victory : Option (String × String))
deriving DecidableEq

/-- `handleMove(ws, agentId, message)` from `server/index.js`: the
challenge gate, the one-time-use deletion, the monologue check, and the
hand-off to `processMove`.  Database writes and notifications are
fire-and-forget and carry no game state, so they are not modelled. -/
def handleMove (sha : String → String) (st : ServerState) (agentId : String)
    (msg : MoveMessage) (now : Int) : ServerState × MoveResponse :=
  match msg.move with
  | none => (st, .errMissingFields)
  | some move =>
    if msg.matchId = "" then (st, .errMissingFields)
    else
      match mapLookup st.activeChallenges agentId with
      | none => (st, .errNoChallenge)
      | some ch =>
        if ch.matchId ≠ msg.matchId then (st, .errNoChallenge)
        else
          match msg.nonce with
          | none => (st, .rejectedPowRequired)
          | some n =>
            if ¬ verifyProof sha ch.pfx ch.difficulty n then (st, .rejectedPowInvalid)
            else
              -- Clear the challenge (one-time use)
              let st1 : ServerState :=
                { st with activeChallenges := mapDelete st.activeChallenges agentId }
              if (jsTrim msg.monologue).length < 10 then (st1, .errMonologueTooShort)
              else
                match mapLookup st1.activeMatches msg.matchId with
                | none => (st1, .errMatchNotFound)
                | some gs =>
                  match processMove gs agentId move now with
                  | (_, .rejected e) => (st1, .moveRejected e)
                  | (gs', .accepted r u v) =>
                    ({ st1 with activeMatches := mapSet st1.activeMatches msg.matchId gs' },
                     .moveAccepted r u v)

/-- `startTurnTimer(matchId, agentId)`: (re)issues the proof-of-work
challenge for the agent whose turn begins.  The timer object itself lives
outside the modelled state; only the challenge registry effect is kept. -/
def startTurnTimer (sha : String → String) (st : ServerState) (matchId agentId : String)
    (now : Int) : ServerState :=
  let turn : Int := match mapLookup st.activeMatches matchId with
    | some gs => gs.turn
    | none => 0
  let ch := generateChallenge sha agentId matchId turn now
  { st with activeChallenges :=
      mapSet st.activeChallenges agentId ⟨ch.1, ch.2, matchId⟩ }

/-- `handleTurnTimeout(matchId, agentId)`: forces a `SKIP` for the stalled
agent and, if the match is still active, starts the next player's turn
(which issues that player a fresh challenge). -/
def handleTurnTimeout (sha : String → String) (st : ServerState) (matchId agentId : String)
    (now : Int) : ServerState :=
  match mapLookup st.activeMatches matchId with
  | none => st
  | some gs =>
    if gs.status ≠ "active" then st
    else
      let step := processMove gs agentId ⟨"SKIP", none, none, none⟩ now
      let st1 : ServerState := { st with activeMatches := mapSet st.activeMatches matchId step.1 }
      if step.1.status = "active" then startTurnTimer sha st1 matchId step.1.currentPlayer now
      else st1

/-! ## Matchmakers.  v1 (`src/server/matchmaker.js`) expands search ranges
with wait time and pairs by smallest Elo difference within both ranges;
v2 (`Matchmaker Service v2 - Async/Stateless`) pairs the first two waiting
agents unconditionally. -/

/-- A `match_queue` row as used by `runMatchmaking` (v1). -/
structure QueueEntry where
  agentId : String
  eloRating : Int
  queuedAt : Int
  searchRange : Int
deriving DecidableEq

/-- The v1 range-expansion step: `min(INITIAL + floor(waitSeconds/10) *
RATE, MAX)` with `waitSeconds = floor((now − queuedAt)/1000)`;
`Math.floor` of a real division is flooring integer division. -/
def expandRange (now : Int) (e : QueueEntry) : QueueEntry :=
  { e with
      searchRange := min (100 + (Int.fdiv (Int.fdiv (now - e.queuedAt) 1000) 10) * 50) 500 }

/-- `bestEloDiff` comparison of the v1 inner loop: any candidate beats the
initial `Infinity`, otherwise a strict improvement is required. -/
def beatsBest (best : Option (QueueEntry × Int)) (d : Int) : Bool :=
  match best with
  | none => true
  | some b => decide (d < b.2)

/-- The inner `j`-loop of v1 `runMatchmaking`: scan later unmatched
entries, keep the candidate with the strictly smallest Elo difference that
is within both entries' search ranges. -/
def scanBest (p1 : QueueEntry) : List QueueEntry → List String →
    Option (QueueEntry × Int) → Option (QueueEntry × Int)
  | [], _, best => best
  | q :: qs, matched, best =>
    if q.agentId ∈ matched then scanBest p1 qs matched best
    else
      let d : Int := (p1.eloRating - q.eloRating).natAbs
      if d ≤ p1.searchRange ∧ d ≤ q.searchRange ∧ beatsBest best d then
        scanBest p1 qs matched (some (q, d))
      else scanBest p1 qs matched best

/-- The outer `i`-loop of v1 `runMatchmaking`, producing the matched pairs
in wait order. -/
def runPairing : List QueueEntry → List String → List (QueueEntry × QueueEntry × Int)
  | [], _ => []
  | p :: rest, matched =>
    if p.agentId ∈ matched then runPairing rest matched
    else
      match scanBest p rest matched none with
      | some qd => (p, qd.1, qd.2) :: runPairing rest (p.agentId :: qd.1.agentId :: matched)
      | none => runPairing rest matched

/-- v1 `runMatchmaking` on an already-loaded waiting list: expand every
entry's range, then pair greedily. -/
def runMatchmakingV1 (now : Int) (waiting : List QueueEntry) :
    List (QueueEntry × QueueEntry × Int) :=
  runPairing (waiting.map (expandRange now)) []

/-- v2 `runMatchmaking` (async matchmaker): if at least two agents are
waiting, pair `waiting[0]` with `waiting[1]` — no range or rating check. -/
def runMatchmakingV2Select (waiting : List QueueEntry) : Option (QueueEntry × QueueEntry) :=
  match waiting with
  | a :: b :: _ => some (a, b)
  | _ => none

/-- `createAsyncMatch` (v2): `initMatch(agent1, agent2)` keyed in listed
order, then `currentPlayer` overwritten with a random coin flip; the flip
is an explicit parameter here. -/
def asyncMatchFirstPlayer (agent1 agent2 : String) (coin : Bool) : String :=
  if coin then agent1 else agent2

/-! ## Lemmas about the registry association lists -/

theorem mapLookup_cons {α : Type} (p : String × α) (l : List (String × α)) (k : String) :
    mapLookup (p :: l) k = if p.1 = k then some p.2 else mapLookup l k := by
  by_cases h : p.1 = k <;> simp [mapLookup, List.find?_cons, h]

theorem mapLookup_mapDelete_self {α : Type} (l : List (String × α)) (k : String) :
    mapLookup (mapDelete l k) k = none := by
  induction l with
  | nil => simp [mapDelete, mapLookup]
  | cons p l ih =>
    by_cases h : p.1 = k
    · simpa [mapDelete, List.filter_cons, h] using ih
    · simpa [mapDelete, List.filter_cons, h, mapLookup_cons] using ih

theorem mapLookup_mapDelete_ne {α : Type} (l : List (String × α)) (k k' : String)
    (h : k' ≠ k) : mapLookup (mapDelete l k) k' = mapLookup l k' := by
  induction l with
  | nil => simp [mapDelete, mapLookup]
  | cons p l ih =>
    by_cases hp : p.1 = k
    · have h1 : mapDelete (p :: l) k = mapDelete l k := by
        simp [mapDelete, List.filter_cons, hp]
      have h2 : p.1 ≠ k' := by rw [hp]; exact fun e => h e.symm
      rw [h1, mapLookup_cons, if_neg h2, ih]
    · have h1 : mapDelete (p :: l) k = p :: mapDelete l k := by
        simp [mapDelete, List.filter_cons, hp]
      rw [h1, mapLookup_cons, mapLookup_cons, ih]

theorem mapLookup_replace_ne {α : Type} (l : List (String × α)) (k k' : String) (v : α)
    (h : k' ≠ k) :
    mapLookup (l.map (fun q => if q.1 = k then (k, v) else q)) k' = mapLookup l k' := by
  have hk : k ≠ k' := fun hk => h hk.symm
  induction l with
  | nil => simp [mapLookup]
  | cons p l ih =>
    by_cases hp : p.1 = k
    · simp [List.map_cons, hp, mapLookup_cons, hk, ih]
    · simp [List.map_cons, hp, mapLookup_cons, ih]

theorem mapLookup_replace_self {α : Type} (l : List (String × α)) (k : String) (v : α)
    (ha : l.any (fun q => decide (q.1 = k)) = true) :
    mapLookup (l.map (fun q => if q.1 = k then (k, v) else q)) k = some v := by
  induction l with
  | nil => simp at ha
  | cons p l ih =>
    by_cases hp : p.1 = k
    · simp [List.map_cons, hp, mapLookup_cons]
    · have ha' : l.any (fun q => decide (q.1 = k)) = true := by
        simp only [List.any_cons, Bool.or_eq_true, decide_eq_true_eq] at ha
        rcases ha with h1 | h2
        · exact absurd h1 hp
        · simpa using h2
      simp [List.map_cons, hp, mapLookup_cons, ih ha']

theorem mapLookup_append_single_self {α : Type} (l : List (String × α)) (k : String) (v : α)
    (ha : ¬ l.any (fun q => decide (q.1 = k)) = true) :
    mapLookup (l ++ [(k, v)]) k = some v := by
  induction l with
  | nil => simp [mapLookup_cons, mapLookup]
  | cons p l ih =>
    simp only [List.any_cons, Bool.or_eq_true, decide_eq_true_eq, not_or] at ha
    simp [List.cons_append, mapLookup_cons, ha.1, ih (by simpa using ha.2)]

theorem mapLookup_append_single_ne {α : Type} (l : List (String × α)) (k k' : String) (v : α)
    (h : k' ≠ k) : mapLookup (l ++ [(k, v)]) k' = mapLookup l k' := by
  have hk : k ≠ k' := fun hk => h hk.symm
  induction l with
  | nil => simp [mapLookup_cons, mapLookup, hk]
  | cons p l ih =>
    by_cases hp : p.1 = k' <;> simp [List.cons_append, mapLookup_cons, hp, ih]

theorem mapLookup_mapSet_self {α : Type} (l : List (String × α)) (k : String) (v : α) :
    mapLookup (mapSet l k v) k = some v := by
  by_cases ha : l.any (fun q => decide (q.1 = k)) = true
  · rw [mapSet, if_pos ha]
    exact mapLookup_replace_self l k v ha
  · rw [mapSet, if_neg ha]
    exact mapLookup_append_single_self l k v ha

theorem mapLookup_mapSet_ne {α : Type} (l : List (String × α)) (k k' : String) (v : α)
    (h : k' ≠ k) : mapLookup (mapSet l k v) k' = mapLookup l k' := by
  by_cases ha : l.any (fun q => decide (q.1 = k)) = true
  · rw [mapSet, if_pos ha]
    exact mapLookup_replace_ne l k k' v h
  · rw [mapSet, if_neg ha]
    exact mapLookup_append_single_ne l k k' v h

/-! ## Frame lemmas for the engine: which parts of the state each operation
can touch. -/

/-- The per-player replacement of `updatePlayer` never changes the list of
player ids when the update function preserves `id`. -/
theorem map_id_if (l : List Player) (pid : String) (f : Player → Player)
    (hf : ∀ p, (f p).id = p.id) :
    (l.map (fun p => if p.id = pid then f p else p)).map (fun p => p.id) =
      l.map (fun p => p.id) := by
  induction l with
  | nil => rfl
  | cons p l ih =>
    by_cases hp : p.id = pid <;> simp [hp, hf, ih]

/-- `state.players[agentId]` after `updatePlayer agentId f` is the updated
player, when `f` preserves `id`. -/
theorem getPlayer_updatePlayer_self (s : GameState) (pid : String) (f : Player → Player)
    (hf : ∀ p, (f p).id = p.id) :
    (s.updatePlayer pid f).getPlayer pid = (s.getPlayer pid).map f := by
  have hpred : ((fun p => decide (p.id = pid)) ∘ fun p => if p.id = pid then f p else p) =
      fun p : Player => decide (p.id = pid) := by
    funext p
    by_cases hp : p.id = pid <;> simp [Function.comp, hp, hf]
  simp only [GameState.getPlayer, GameState.updatePlayer]
  rw [List.find?_map, hpred]
  cases hfind : s.players.find? (fun p => decide (p.id = pid)) with
  | none => rfl
  | some p0 =>
    have hp0 : p0.id = pid := by simpa using List.find?_some hfind
    simp [Option.map, hp0]

/-- A grid lookup commutes with a coordinate-preserving map over the grid. -/
theorem findSector_map (g : List Sector) (ϕ : Sector → Sector)
    (hϕ : ∀ x, (ϕ x).row = x.row ∧ (ϕ x).col = x.col) (r c : Int) :
    findSector (g.map ϕ) r c = (findSector g r c).map ϕ := by
  have hpred : ((fun sec => decide (sec.row = r ∧ sec.col = c)) ∘ ϕ) =
      fun sec : Sector => decide (sec.row = r ∧ sec.col = c) := by
    funext x
    simp [Function.comp, (hϕ x).1, (hϕ x).2]
  simp only [findSector]
  rw [List.find?_map, hpred]

/-- The update functions the engine maps over the grid all preserve a
sector's coordinates and never clear its sanctuary flag. -/
def coordSanct (ϕ : Sector → Sector) : Prop :=
  ∀ x, (ϕ x).row = x.row ∧ (ϕ x).col = x.col ∧ (x.sanctuary = true → (ϕ x).sanctuary = true)

/-- `checkVictory` reads only `players` and `grid`. -/
theorem checkVictoryGo_ext (s t : GameState) (hp : s.players = t.players)
    (hg : s.grid = t.grid) : ∀ l, checkVictoryGo s l = checkVictoryGo t l := by
  intro l
  induction l with
  | nil => rfl
  | cons p rest ih => simp only [checkVictoryGo, hp, hg, ih]

/-- What an `execute*` helper may change: it never touches the turn
counter, status, turn pointer, log, id or winner; it keeps the player-id
list; and any grid change is a coordinate-preserving, sanctuary-monotone
per-sector rewrite. -/
def frameOk (s s' : GameState) : Prop :=
  s'.players.map (fun p => p.id) = s.players.map (fun p => p.id) ∧
  s'.turn = s.turn ∧ s'.status = s.status ∧ s'.currentPlayer = s.currentPlayer ∧
  s'.log = s.log ∧ s'.id = s.id ∧ s'.winner = s.winner ∧
  (s'.grid = s.grid ∨ ∃ ϕ, coordSanct ϕ ∧ s'.grid = s.grid.map ϕ)

theorem frameOk_refl (s : GameState) : frameOk s s :=
  ⟨rfl, rfl, rfl, rfl, rfl, rfl, rfl, Or.inl rfl⟩

theorem coordSanct_comp {ϕ ψ : Sector → Sector} (hϕ : coordSanct ϕ) (hψ : coordSanct ψ) :
    coordSanct (ψ ∘ ϕ) := fun x =>
  ⟨((hψ (ϕ x)).1).trans (hϕ x).1, ((hψ (ϕ x)).2.1).trans (hϕ x).2.1,
   fun hx => (hψ (ϕ x)).2.2 ((hϕ x).2.2 hx)⟩

theorem coordSanct_updAt (r c : Int) (f : Sector → Sector)
    (hf : ∀ x, (f x).row = x.row ∧ (f x).col = x.col ∧
      (x.sanctuary = true → (f x).sanctuary = true)) :
    coordSanct (fun sec => if sec.row = r ∧ sec.col = c then f sec else sec) := by
  intro x
  by_cases hx : x.row = r ∧ x.col = c
  · simp only [if_pos hx]
    exact hf x
  · simp [if_neg hx]

theorem frameOk_step_updatePlayer {s t : GameState} {pid : String} {f : Player → Player}
    (h : frameOk s t) (hf : ∀ p, (f p).id = p.id) : frameOk s (t.updatePlayer pid f) := by
  obtain ⟨hids, hturn, hstatus, hcur, hlog, hid, hwin, hgrid⟩ := h
  refine ⟨?_, hturn, hstatus, hcur, hlog, hid, hwin, hgrid⟩
  simp only [GameState.updatePlayer]
  rw [map_id_if _ _ _ hf]
  exact hids

theorem frameOk_step_updateSector {s t : GameState} {r c : Int} {f : Sector → Sector}
    (h : frameOk s t)
    (hf : ∀ x, (f x).row = x.row ∧ (f x).col = x.col ∧
      (x.sanctuary = true → (f x).sanctuary = true)) :
    frameOk s (t.updateSector r c f) := by
  obtain ⟨hids, hturn, hstatus, hcur, hlog, hid, hwin, hgrid⟩ := h
  refine ⟨hids, hturn, hstatus, hcur, hlog, hid, hwin, ?_⟩
  have hψ := coordSanct_updAt r c f hf
  rcases hgrid with hg | ⟨ϕ, hϕ, hg⟩
  · refine Or.inr ⟨_, hψ, ?_⟩
    simp only [GameState.updateSector, hg]
  · refine Or.inr ⟨(fun sec => if sec.row = r ∧ sec.col = c then f sec else sec) ∘ ϕ,
      coordSanct_comp hϕ hψ, ?_⟩
    simp only [GameState.updateSector]
    rw [hg, List.map_map]

theorem executeConquer_frame (s : GameState) (a : String) (tgt : Option (Int × Int))
    (i : ℚ) (s' : GameState) (r : ExecResult)
    (h : executeConquer s a tgt i = .ok s' r) : frameOk s s' := by
  cases hgp : s.getPlayer a with
  | none =>
    simp only [executeConquer, hgp] at h
    exact ExecOutcome.noConfusion h
  | some player =>
    cases htg : tgt.bind (fun t => findSector s.grid t.1 t.2) with
    | none =>
      simp only [executeConquer, hgp, htg] at h
      exact ExecOutcome.noConfusion h
    | some sector =>
      simp only [executeConquer, hgp, htg] at h
      repeat' split at h
      all_goals try exact ExecOutcome.noConfusion h
      all_goals injection h with hs hr
      all_goals subst hs
      all_goals
        repeat'
          first
          | exact frameOk_refl _
          | refine frameOk_step_updatePlayer ?_ (fun p => rfl)
          | refine frameOk_step_updateSector ?_ (fun x => ⟨rfl, rfl, fun hx => hx⟩)
          | refine frameOk_step_updateSector ?_ (fun x => ⟨rfl, rfl, fun hx => rfl⟩)

theorem executePurge_frame (s : GameState) (a : String) (tgt : Option (Int × Int))
    (s' : GameState) (r : ExecResult)
    (h : executePurge s a tgt = .ok s' r) : frameOk s s' := by
  cases hgp : s.getPlayer a with
  | none =>
    simp only [executePurge, hgp] at h
    exact ExecOutcome.noConfusion h
  | some player =>
    cases htg : tgt.bind (fun t => findSector s.grid t.1 t.2) with
    | none =>
      simp only [executePurge, hgp, htg] at h
      exact ExecOutcome.noConfusion h
    | some sector =>
      simp only [executePurge, hgp, htg] at h
      repeat' split at h
      all_goals try exact ExecOutcome.noConfusion h
      all_goals injection h with hs hr
      all_goals subst hs
      all_goals
        repeat'
          first
          | exact frameOk_refl _
          | refine frameOk_step_updatePlayer ?_ (fun p => rfl)
          | refine frameOk_step_updateSector ?_ (fun x => ⟨rfl, rfl, fun hx => hx⟩)

theorem executeFortify_frame (s : GameState) (a : String) (tgt : Option (Int × Int))
    (s' : GameState) (r : ExecResult)
    (h : executeFortify s a tgt = .ok s' r) : frameOk s s' := by
  cases hgp : s.getPlayer a with
  | none =>
    simp only [executeFortify, hgp] at h
    exact ExecOutcome.noConfusion h
  | some player =>
    cases htg : tgt.bind (fun t => findSector s.grid t.1 t.2) with
    | none =>
      simp only [executeFortify, hgp, htg] at h
      exact ExecOutcome.noConfusion h
    | some sector =>
      simp only [executeFortify, hgp, htg] at h
      repeat' split at h
      all_goals try exact ExecOutcome.noConfusion h
      all_goals injection h with hs hr
      all_goals subst hs
      all_goals
        repeat'
          first
          | exact frameOk_refl _
          | refine frameOk_step_updatePlayer ?_ (fun p => rfl)
          | refine frameOk_step_updateSector ?_ (fun x => ⟨rfl, rfl, fun hx => hx⟩)

theorem executeResearch_frame (s : GameState) (a : String) (tid : Option String)
    (s' : GameState) (r : ExecResult)
    (h : executeResearch s a tid = .ok s' r) : frameOk s s' := by
  cases hgp : s.getPlayer a with
  | none =>
    simp only [executeResearch, hgp] at h
    exact ExecOutcome.noConfusion h
  | some player =>
    simp only [executeResearch, hgp] at h
    cases htc : techCost (tid.getD "undefined") with
    | none =>
      rw [htc] at h
      exact ExecOutcome.noConfusion h
    | some cost =>
      rw [htc] at h
      repeat' split at h
      all_goals try exact ExecOutcome.noConfusion h
      all_goals injection h with hs hr
      all_goals subst hs
      all_goals exact frameOk_step_updatePlayer (frameOk_refl s) (fun p => rfl)

theorem executeMercy_frame (s : GameState) (a : String) (tgt : Option (Int × Int))
    (s' : GameState) (r : ExecResult)
    (h : executeMercy s a tgt = .ok s' r) : frameOk s s' := by
  cases hgp : s.getPlayer a with
  | none =>
    simp only [executeMercy, hgp] at h
    exact ExecOutcome.noConfusion h
  | some player =>
    simp only [executeMercy, hgp] at h
    split at h
    · exact ExecOutcome.noConfusion h
    · cases htg : tgt.bind (fun t => findSector s.grid t.1 t.2) with
      | none =>
        rw [htg] at h
        exact ExecOutcome.noConfusion h
      | some sector =>
        rw [htg] at h
        repeat' split at h
        all_goals try exact ExecOutcome.noConfusion h
        all_goals injection h with hs hr
        all_goals subst hs
        all_goals
          repeat'
            first
            | exact frameOk_refl _
            | refine frameOk_step_updatePlayer ?_ (fun p => rfl)
            | refine frameOk_step_updateSector ?_ (fun x => ⟨rfl, rfl, fun hx => rfl⟩)

/-- Any successful action execution respects the frame. -/
theorem runAction_frame (s : GameState) (a : String) (c : Command)
    (s' : GameState) (r : ExecResult)
    (h : runAction s a c = .ok s' r) : frameOk s s' := by
  unfold runAction at h
  repeat' split at h
  · exact executeConquer_frame _ _ _ _ _ _ h
  · exact executePurge_frame _ _ _ _ _ h
  · exact executeFortify_frame _ _ _ _ _ h
  · exact executeResearch_frame _ _ _ _ _ h
  · exact executeMercy_frame _ _ _ _ _ h
  · injection h with hs hr
    subst hs
    exact frameOk_refl s
  · exact ExecOutcome.noConfusion h

/-- `applyUpkeep` touches only the moving player's energy, compute and
bankruptcy counter; the grid and all match-level fields are untouched. -/
theorem applyUpkeep_frame (s : GameState) (a : String) :
    (applyUpkeep s a).1.players.map (fun p => p.id) = s.players.map (fun p => p.id) ∧
    (applyUpkeep s a).1.turn = s.turn ∧ (applyUpkeep s a).1.status = s.status ∧
    (applyUpkeep s a).1.currentPlayer = s.currentPlayer ∧
    (applyUpkeep s a).1.log = s.log ∧ (applyUpkeep s a).1.id = s.id ∧
    (applyUpkeep s a).1.winner = s.winner ∧ (applyUpkeep s a).1.grid = s.grid := by
  unfold applyUpkeep
  cases hgp : s.getPlayer a with
  | none =>
    exact ⟨rfl, rfl, rfl, rfl, rfl, rfl, rfl, rfl⟩
  | some player =>
    refine ⟨?_, rfl, rfl, rfl, rfl, rfl, rfl, rfl⟩
    simp only [GameState.updatePlayer]
    exact map_id_if _ _ _ (fun p => rfl)

/-- When `processMove` rejects a command (for any of its rejection
reasons) the match state is returned unchanged: every `execute*` failure
happens before any mutation. -/
theorem processMove_rejected_state (s : GameState) (a : String) (c : Command) (now : Int)
    (e : String) (h : (processMove s a c now).2 = .rejected e) :
    (processMove s a c now).1 = s := by
  unfold processMove at *
  by_cases h1 : s.currentPlayer ≠ a
  · simp [h1]
  · rw [if_neg h1] at h ⊢
    by_cases h2 : s.status ≠ "active"
    · simp [h2]
    · rw [if_neg h2] at h ⊢
      cases hra : runAction s a c with
      | fail e' => rfl
      | ok s1 r =>
        rw [hra] at h
        exact absurd h (by simp)

/-- The turn pointer the switch step computes from a given id list. -/
def nextOf (ids : List String) (agentId : String) : String :=
  ids.getD (((jsIndexOf ids agentId + 1) % (ids.length : Int)).toNat) ""

theorem switchTurn_players (s : GameState) (a : String) :
    (switchTurn s a).players = s.players := by
  simp only [switchTurn]
  split <;> rfl

theorem switchTurn_grid (s : GameState) (a : String) :
    (switchTurn s a).grid = s.grid := by
  simp only [switchTurn]
  split <;> rfl

theorem switchTurn_status (s : GameState) (a : String) :
    (switchTurn s a).status = s.status := by
  simp only [switchTurn]
  split <;> rfl

theorem switchTurn_currentPlayer (s : GameState) (a : String) :
    (switchTurn s a).currentPlayer = nextOf (s.players.map (fun p => p.id)) a := by
  simp only [switchTurn, nextOf]
  split <;> rfl

theorem switchTurn_turn (s : GameState) (a : String) :
    (switchTurn s a).turn =
      (if nextOf (s.players.map (fun p => p.id)) a =
          (s.players.map (fun p => p.id)).headD "" then s.turn + 1 else s.turn) := by
  simp only [switchTurn, nextOf]
  split <;> rfl

theorem applyVictory_players (s : GameState) : (applyVictory s).players = s.players := by
  unfold applyVictory
  split <;> rfl

theorem applyVictory_grid (s : GameState) : (applyVictory s).grid = s.grid := by
  unfold applyVictory
  split <;> rfl

theorem applyVictory_turn (s : GameState) : (applyVictory s).turn = s.turn := by
  unfold applyVictory
  split <;> rfl

theorem applyVictory_currentPlayer (s : GameState) :
    (applyVictory s).currentPlayer = s.currentPlayer := by
  unfold applyVictory
  split <;> rfl

theorem applyVictory_log (s : GameState) : (applyVictory s).log = s.log := by
  unfold applyVictory
  split <;> rfl

/-- Everything `processMove` guarantees about an accepted move, stated
against the starting state: the caller was the active player of an active
match, the player-id list survives, the turn pointer becomes `nextOf` the
id list, the round counter increments exactly when the new pointer is the
first-listed id, and the grid is rewritten sector-wise by a
coordinate-preserving, sanctuary-monotone function (or untouched). -/
theorem processMove_accepted_shape (s : GameState) (a : String) (c : Command) (now : Int)
    (s' : GameState) (r : ExecResult) (u : UpkeepReport) (v : Option (String × String))
    (h : processMove s a c now = (s', .accepted r u v)) :
    s.currentPlayer = a ∧ s.status = "active" ∧
    s'.players.map (fun p => p.id) = s.players.map (fun p => p.id) ∧
    s'.currentPlayer = nextOf (s.players.map (fun p => p.id)) a ∧
    s'.turn = (if nextOf (s.players.map (fun p => p.id)) a =
        (s.players.map (fun p => p.id)).headD "" then s.turn + 1 else s.turn) ∧
    (s'.grid = s.grid ∨ ∃ ϕ, coordSanct ϕ ∧ s'.grid = s.grid.map ϕ) := by
  unfold processMove at h
  by_cases h1 : s.currentPlayer = a
  case neg =>
    rw [if_pos h1] at h
    injection h with hA hB
    exact MoveResult.noConfusion hB
  case pos =>
    rw [if_neg (not_not_intro h1)] at h
    by_cases h2 : s.status = "active"
    case neg =>
      rw [if_pos h2] at h
      injection h with hA hB
      exact MoveResult.noConfusion hB
    case pos =>
      rw [if_neg (not_not_intro h2)] at h
      cases hra : runAction s a c with
      | fail e' =>
        rw [hra] at h
        injection h with hA hB
        exact MoveResult.noConfusion hB
      | ok s1 r' =>
        rw [hra] at h
        injection h with hS hR
        obtain ⟨fr_ids, fr_turn, fr_status, fr_cur, fr_log, fr_id, fr_win, fr_grid⟩ :=
          runAction_frame s a c s1 r' hra
        obtain ⟨au_ids, au_turn, au_status, au_cur, au_log, au_id, au_win, au_grid⟩ :=
          applyUpkeep_frame s1 a
        subst hS
        have hp3 : (applyVictory (logPush (applyUpkeep s1 a).1 a c r'
            (applyUpkeep s1 a).2 now)).players.map (fun p => p.id) =
            s.players.map (fun p => p.id) := by
          rw [applyVictory_players]
          show (applyUpkeep s1 a).1.players.map (fun p => p.id) = _
          rw [au_ids, fr_ids]
        refine ⟨h1, h2, ?_, ?_, ?_, ?_⟩
        · rw [switchTurn_players]
          exact hp3
        · rw [switchTurn_currentPlayer, hp3]
        · rw [switchTurn_turn, hp3]
          have ht : (applyVictory (logPush (applyUpkeep s1 a).1 a c r'
              (applyUpkeep s1 a).2 now)).turn = s.turn := by
            rw [applyVictory_turn]
            show (applyUpkeep s1 a).1.turn = s.turn
            rw [au_turn, fr_turn]
          rw [ht]
        · rw [switchTurn_grid, applyVictory_grid]
          have hg : (logPush (applyUpkeep s1 a).1 a c r' (applyUpkeep s1 a).2 now).grid =
              s1.grid := au_grid
          rw [hg]
          exact fr_grid

/-! ## Determinism up to the clock: the only use `processMove` makes of
`Date.now()` is the timestamp written into the action log. -/

/-- Zero out one log entry's wall-clock timestamp. -/
def stripEntry (e : LogEntry) : LogEntry := { e with timestamp := 0 }

/-- A match state with all log timestamps zeroed: everything the game rules
can ever read. -/
def stripLogTimes (s : GameState) : GameState := { s with log := s.log.map stripEntry }

/-- Two states that agree everywhere except possibly in the wall-clock
timestamps of their log entries. -/
def eqExceptLog (t1 t2 : GameState) : Prop :=
  t1.id = t2.id ∧ t1.players = t2.players ∧ t1.grid = t2.grid ∧ t1.turn = t2.turn ∧
  t1.currentPlayer = t2.currentPlayer ∧ t1.status = t2.status ∧ t1.winner = t2.winner ∧
  t1.log.map stripEntry = t2.log.map stripEntry

theorem checkVictory_congr {t1 t2 : GameState} (h : eqExceptLog t1 t2) :
    checkVictory t1 = checkVictory t2 := by
  obtain ⟨_, hp, hg, _, _, _, _, _⟩ := h
  unfold checkVictory
  rw [checkVictoryGo_ext t1 t2 hp hg t1.players, hp]

theorem eqExceptLog_logPush (s : GameState) (a : String) (c : Command) (r : ExecResult)
    (u : UpkeepReport) (n1 n2 : Int) :
    eqExceptLog (logPush s a c r u n1) (logPush s a c r u n2) := by
  refine ⟨rfl, rfl, rfl, rfl, rfl, rfl, rfl, ?_⟩
  simp [logPush, stripEntry]

theorem eqExceptLog_applyVictory {t1 t2 : GameState} (h : eqExceptLog t1 t2) :
    eqExceptLog (applyVictory t1) (applyVictory t2) := by
  obtain ⟨hid, hp, hg, ht, hc, hs, hw, hl⟩ := h
  unfold applyVictory
  rw [checkVictory_congr ⟨hid, hp, hg, ht, hc, hs, hw, hl⟩]
  cases checkVictory t2 with
  | none => exact ⟨hid, hp, hg, ht, hc, hs, hw, hl⟩
  | some wr => exact ⟨hid, hp, hg, ht, hc, rfl, rfl, hl⟩

theorem eqExceptLog_switchTurn {t1 t2 : GameState} (h : eqExceptLog t1 t2) (a : String) :
    eqExceptLog (switchTurn t1 a) (switchTurn t2 a) := by
  obtain ⟨hid, hp, hg, ht, hc, hs, hw, hl⟩ := h
  simp only [switchTurn, hp]
  split
  · exact ⟨hid, rfl, hg, by rw [ht], rfl, hs, hw, hl⟩
  · exact ⟨hid, rfl, hg, ht, rfl, hs, hw, hl⟩

theorem stripLogTimes_congr {t1 t2 : GameState} (h : eqExceptLog t1 t2) :
    stripLogTimes t1 = stripLogTimes t2 := by
  obtain ⟨hid, hp, hg, ht, hc, hs, hw, hl⟩ := h
  cases t1
  cases t2
  simp only at hid hp hg ht hc hs hw hl
  simp [stripLogTimes, hid, hp, hg, ht, hc, hs, hw, hl]

/-! ## Concrete test fixtures used by counterexamples and witnesses.

The rational-arithmetic primitives are `@[irreducible]` in the library,
which blocks `decide`'s elaboration-time evaluation (the kernel itself
unfolds them fine); restore default reducibility so concrete runs of the
engine can be settled by `decide`. -/

set_option allowUnsafeReducibility true in
attribute [semireducible] Rat.add Rat.mul Rat.div Rat.inv Rat.sub Rat.neg

def playerA : Player := ⟨"A", 100, 0, 0, []⟩

def playerB : Player := ⟨"B", 100, 0, 0, []⟩

/-- A small match grid: `A` owns (0,0), (0,1) is neutral (pop 8, def 10,
adjacent to (0,0)), `B` owns (1,0). -/
def testGrid : List Sector :=
  [⟨0, 0, some "A", 10, 10, false, false⟩,
   ⟨0, 1, none, 8, 10, false, false⟩,
   ⟨1, 0, some "B", 10, 10, false, false⟩]

def testMatch : GameState := ⟨"M", [playerA, playerB], testGrid, 0, "A", "active", none, []⟩

/-- Same match but the second-listed player was picked to move first
(`createAsyncMatch` does this on a coin flip). -/
def testMatchBFirst : GameState :=
  ⟨"M", [playerA, playerB], testGrid, 0, "B", "active", none, []⟩

def skipCommand : Command := ⟨"SKIP", none, none, none⟩

/-! ## C4 — determinism of `resolve` -/

/-- C4, claim as stated, is false: `processMove` writes `Date.now()` into
the pushed action-log entry, so resolving the same command from identical
starting states at two different clock instants yields *different*
resulting states (they differ in the log timestamp). -/
theorem c4_cex_resolve_states_differ_with_clock :
    (processMove testMatch "A" skipCommand 0).1 ≠ (processMove testMatch "A" skipCommand 1).1 := by
  decide

/-- C4 (amended): `resolve` is deterministic up to the wall clock: from
identical starting states the Results are identical, and the resulting
states are identical except for the `Date.now()` timestamps in the action
log (in particular, with equal clock readings the states are identical);
no randomness is used anywhere in `processMove`. -/
theorem c4_processMove_deterministic_up_to_clock (s : GameState) (a : String) (c : Command)
    (n1 n2 : Int) :
    (processMove s a c n1).2 = (processMove s a c n2).2 ∧
    stripLogTimes (processMove s a c n1).1 = stripLogTimes (processMove s a c n2).1 := by
  unfold processMove
  by_cases h1 : s.currentPlayer ≠ a
  · rw [if_pos h1, if_pos h1]
    exact ⟨rfl, rfl⟩
  · rw [if_neg h1, if_neg h1]
    by_cases h2 : s.status ≠ "active"
    · rw [if_pos h2, if_pos h2]
      exact ⟨rfl, rfl⟩
    · rw [if_neg h2, if_neg h2]
      cases hra : runAction s a c with
      | fail e => exact ⟨rfl, rfl⟩
      | ok s1 r =>
        have hle := eqExceptLog_logPush (applyUpkeep s1 a).1 a c r (applyUpkeep s1 a).2 n1 n2
        constructor
        · show MoveResult.accepted r (applyUpkeep s1 a).2 _ =
            MoveResult.accepted r (applyUpkeep s1 a).2 _
          rw [checkVictory_congr hle]
        · show stripLogTimes (switchTurn (applyVictory _) a) =
            stripLogTimes (switchTurn (applyVictory _) a)
          exact stripLogTimes_congr (eqExceptLog_switchTurn (eqExceptLog_applyVictory hle) a)

/-! ## C3 — the sanctuary invariant -/

/-- C3: in any match state, a PURGE (Harvest) aimed at a sector whose
`sanctuary` flag is set is rejected and leaves the state unchanged; and no
command whatsoever (attack, purge, fortify, research, mercy, skip, or
anything rejected) can ever clear a set `sanctuary` flag — the sector at
those coordinates still has `sanctuary = true` after `processMove`. -/
theorem c3_sanctuary_invariant (s : GameState) (a : String) (c : Command) (now : Int)
    (rr cc : Int) (sec : Sector) (hfind : findSector s.grid rr cc = some sec)
    (hsanct : sec.sanctuary = true) :
    (c.action = "PURGE" → c.targetSector = some (rr, cc) →
      (processMove s a c now).1 = s ∧ ∃ e, (processMove s a c now).2 = .rejected e) ∧
    (∃ sec', findSector (processMove s a c now).1.grid rr cc = some sec' ∧
      sec'.sanctuary = true) := by
  constructor
  · intro hact htgt
    have hpurge : ∃ e, executePurge s a c.targetSector = .fail e := by
      rw [htgt]
      cases hgp : s.getPlayer a with
      | none =>
        simp only [executePurge, hgp]
        exact ⟨_, rfl⟩
      | some player =>
        have hb : (Option.some (rr, cc)).bind (fun t => findSector s.grid t.1 t.2) =
            some sec := by simpa using hfind
        simp only [executePurge, hgp, hb]
        by_cases h1 : sec.owner ≠ some a
        · rw [if_pos h1]
          exact ⟨_, rfl⟩
        · rw [if_neg h1]
          by_cases h2 : sec.population = 0
          · rw [if_pos h2]
            exact ⟨_, rfl⟩
          · rw [if_neg h2, if_pos hsanct]
            exact ⟨_, rfl⟩
    have hrej : ∃ e, (processMove s a c now).2 = .rejected e := by
      unfold processMove
      by_cases h1 : s.currentPlayer ≠ a
      · rw [if_pos h1]
        exact ⟨_, rfl⟩
      · rw [if_neg h1]
        by_cases h2 : s.status ≠ "active"
        · rw [if_pos h2]
          exact ⟨_, rfl⟩
        · rw [if_neg h2]
          obtain ⟨e, he⟩ := hpurge
          have hra : runAction s a c = .fail e := by
            unfold runAction
            rw [hact] at *
            simpa using he
          rw [hra]
          exact ⟨e, rfl⟩
    obtain ⟨e, he⟩ := hrej
    exact ⟨processMove_rejected_state s a c now e he, ⟨e, he⟩⟩
  · cases hres : (processMove s a c now).2 with
    | rejected e =>
      rw [processMove_rejected_state s a c now e hres]
      exact ⟨sec, hfind, hsanct⟩
    | accepted r u v =>
      have hpair : processMove s a c now = ((processMove s a c now).1,
          MoveResult.accepted r u v) := by
        rw [← hres]
      obtain ⟨_, _, _, _, _, hgrid⟩ :=
        processMove_accepted_shape s a c now (processMove s a c now).1 r u v hpair
      rcases hgrid with hg | ⟨ϕ, hϕ, hg⟩
      · rw [hg]
        exact ⟨sec, hfind, hsanct⟩
      · rw [hg, findSector_map s.grid ϕ (fun x => ⟨(hϕ x).1, (hϕ x).2.1⟩) rr cc, hfind]
        exact ⟨ϕ sec, rfl, (hϕ sec).2.2 hsanct⟩

/-- The sanctuary fixture: `A` owns (0,0) with `sanctuary = true`. -/
def sanctuaryGrid : List Sector :=
  [⟨0, 0, some "A", 10, 10, true, false⟩,
   ⟨0, 1, none, 8, 10, false, false⟩,
   ⟨1, 0, some "B", 10, 10, false, false⟩]

def testMatchSanct : GameState :=
  ⟨"M", [playerA, playerB], sanctuaryGrid, 0, "A", "active", none, []⟩

/-- Witness for C3 at a concrete input: purging the owner's own sanctuary
sector is rejected, the state survives untouched, and the flag is still
set afterwards. -/
theorem c3_sanctuary_invariant_witness :
    ((processMove testMatchSanct "A" ⟨"PURGE", some (0, 0), none, none⟩ 0).1 =
        testMatchSanct ∧
      ∃ e, (processMove testMatchSanct "A" ⟨"PURGE", some (0, 0), none, none⟩ 0).2 =
        .rejected e) ∧
    (∃ sec', findSector (processMove testMatchSanct "A"
        ⟨"PURGE", some (0, 0), none, none⟩ 0).1.grid 0 0 = some sec' ∧
      sec'.sanctuary = true) := by
  have h := c3_sanctuary_invariant testMatchSanct "A" ⟨"PURGE", some (0, 0), none, none⟩ 0
    0 0 ⟨0, 0, some "A", 10, 10, true, false⟩ (by decide) (by decide)
  exact ⟨h.1 rfl rfl, h.2⟩

/-! ## C8 — the economic trap -/

theorem getPlayer_congr {s t : GameState} (h : s.players = t.players) (x : String) :
    s.getPlayer x = t.getPlayer x := by
  unfold GameState.getPlayer
  rw [h]

theorem getPlayer_updatePlayer_eq (s : GameState) (pid : String) (f : Player → Player)
    (P : Player) (hgp : s.getPlayer pid = some P) (hf : ∀ p, (f p).id = p.id) :
    (s.updatePlayer pid f).getPlayer pid = some (f P) := by
  rw [getPlayer_updatePlayer_self s pid f hf, hgp]
  rfl

/-- C8: a participant who owns exactly one sector with population `p` such
that `p × upkeepRate > 1 × yieldRate` (with the shipped constants,
`2p > 5`) loses energy on every round in which they only pass: after the
forced/voluntary SKIP resolves, their energy is exactly
`energy + 5 − 2p`, strictly below what it was. -/
theorem c8_economic_trap (s : GameState) (a : String) (now : Int) (P : Player) (sec : Sector)
    (hgp : s.getPlayer a = some P) (hcur : s.currentPlayer = a) (hact : s.status = "active")
    (hown : s.grid.filter (fun x => decide (x.owner = some a)) = [sec])
    (hpop : 2 * sec.population > 5) :
    ∃ P', (processMove s a skipCommand now).1.getPlayer a = some P' ∧
      P'.energy = P.energy + 5 - 2 * sec.population ∧ P'.energy < P.energy := by
  have hkey : ∃ P', (applyUpkeep s a).1.getPlayer a = some P' ∧
      P'.energy = P.energy + 5 - 2 * sec.population := by
    simp only [applyUpkeep, hgp, hown]
    refine ⟨_, getPlayer_updatePlayer_eq s a _ P hgp ?_, ?_⟩
    · exact fun p => rfl
    · simp only [List.map_cons, List.map_nil, List.sum_cons, List.sum_nil,
        List.length_cons, List.length_nil]
      push_cast
      omega
  have hgope : (processMove s a skipCommand now).1.getPlayer a =
      (applyUpkeep s a).1.getPlayer a := by
    unfold processMove
    rw [if_neg (not_not_intro hcur), if_neg (not_not_intro hact)]
    have hra : runAction s a skipCommand = .ok s .skipped := rfl
    rw [hra]
    show (switchTurn (applyVictory (logPush (applyUpkeep s a).1 a skipCommand .skipped
      (applyUpkeep s a).2 now)) a).getPlayer a = _
    rw [getPlayer_congr (switchTurn_players _ _), getPlayer_congr (applyVictory_players _)]
    rfl
  obtain ⟨P', hP', hE⟩ := hkey
  rw [hgope]
  exact ⟨P', hP', hE, by omega⟩

/-- The trap fixture: `A`'s only sector has population 10, so upkeep 20
exceeds yield 5. -/
def trapGrid : List Sector :=
  [⟨0, 0, some "A", 10, 10, false, false⟩,
   ⟨1, 0, some "B", 10, 10, false, false⟩]

def testMatchTrap : GameState :=
  ⟨"M", [playerA, playerB], trapGrid, 0, "A", "active", none, []⟩

/-- Witness for C8 at a concrete input: passing with one sector of
population 10 drops `A`'s energy from 100 to 85. -/
theorem c8_economic_trap_witness :
    ∃ P', (processMove testMatchTrap "A" skipCommand 0).1.getPlayer "A" = some P' ∧
      P'.energy = playerA.energy + 5 - 2 * 10 ∧ P'.energy < playerA.energy :=
  c8_economic_trap testMatchTrap "A" 0 playerA ⟨0, 0, some "A", 10, 10, false, false⟩
    (by decide) rfl rfl (by decide) (by decide)

/-! ## C5 — turn alternation and the round counter -/

theorem nextOf_pair_fst (x y : String) : nextOf [x, y] x = y := by
  simp [nextOf, jsIndexOf]

theorem nextOf_pair_snd (x y : String) (hxy : x ≠ y) : nextOf [x, y] y = x := by
  simp [nextOf, jsIndexOf, hxy]

/-- C5, claim as stated, is false: `turn` increments whenever control
passes to the *first-listed* player (`playerIds[0]`), not when control
returns to the participant who opened the round.  In a match whose coin
flip made the second-listed player `B` move first, a single resolved
action by the opener `B` already increments the round counter from 0 to 1,
although control is only now reaching `A` and has never returned to the
opener. -/
theorem c5_cex_round_counter_async_first_player :
    testMatchBFirst.players.map (fun p => p.id) = ["A", "B"] ∧
    testMatchBFirst.currentPlayer = "B" ∧ testMatchBFirst.turn = 0 ∧
    (processMove testMatchBFirst "B" skipCommand 0).1.currentPlayer = "A" ∧
    (processMove testMatchBFirst "B" skipCommand 0).1.turn = 1 := by
  decide

/-- C5 (amended): after every accepted action (including forced passes)
the active participant switches to the other participant; the round
counter increments exactly when the new active participant is the
*first-listed* player of the match — which coincides with "control returns
to the participant who opened the round" only when the opener is the
first-listed player. -/
theorem c5_turn_alternation (s : GameState) (a x y : String) (c : Command) (now : Int)
    (s' : GameState) (r : ExecResult) (u : UpkeepReport) (v : Option (String × String))
    (hids : s.players.map (fun p => p.id) = [x, y]) (hxy : x ≠ y)
    (h : processMove s a c now = (s', .accepted r u v)) :
    (s.currentPlayer = x → s'.currentPlayer = y ∧ s'.turn = s.turn) ∧
    (s.currentPlayer = y → s'.currentPlayer = x ∧ s'.turn = s.turn + 1) := by
  obtain ⟨hcur, hact, hids', hnext, hturn, hgrid⟩ :=
    processMove_accepted_shape s a c now s' r u v h
  rw [hids] at hnext hturn
  constructor
  · intro hx
    have hax : a = x := by rw [← hcur, hx]
    rw [hax, nextOf_pair_fst] at hnext hturn
    refine ⟨hnext, ?_⟩
    rw [hturn]
    have hcond : ([x, y].headD "" = x) := rfl
    rw [hcond, if_neg (fun hyx : y = x => hxy hyx.symm)]
  · intro hy
    have hay : a = y := by rw [← hcur, hy]
    rw [hay, nextOf_pair_snd x y hxy] at hnext hturn
    refine ⟨hnext, ?_⟩
    rw [hturn]
    have hcond : ([x, y].headD "" = x) := rfl
    rw [hcond, if_pos rfl]

/-- Witness for C5 (amended) at a concrete input: `A` (first-listed) skips,
control moves to `B`, and the round counter does not increment. -/
theorem c5_turn_alternation_witness :
    (processMove testMatch "A" skipCommand 0).1.currentPlayer = "B" ∧
    (processMove testMatch "A" skipCommand 0).1.turn = testMatch.turn :=
  (c5_turn_alternation testMatch "A" "A" "B" skipCommand 0
      (processMove testMatch "A" skipCommand 0).1 .skipped ⟨10, 1, 20, 5, -15, 85, 0⟩ none
      (by decide) (by decide) (by decide)).1 rfl

/-! ## C6 — failed attacks -/

theorem getPlayer_updateSector (t : GameState) (r c : Int) (f : Sector → Sector)
    (x : String) : (t.updateSector r c f).getPlayer x = t.getPlayer x := rfl

theorem findSector_updateSector_eq (t : GameState) (r c : Int) (f : Sector → Sector)
    (sec : Sector) (hfind : findSector t.grid r c = some sec)
    (hf : ∀ x, (f x).row = x.row ∧ (f x).col = x.col) :
    findSector (t.updateSector r c f).grid r c = some (f sec) := by
  have h0 : List.find? (fun x => decide (x.row = r ∧ x.col = c)) t.grid = some sec := hfind
  have hrc : sec.row = r ∧ sec.col = c := by
    have := List.find?_some h0
    simpa using this
  have h1 : (t.updateSector r c f).grid =
      t.grid.map (fun sec => if sec.row = r ∧ sec.col = c then f sec else sec) := rfl
  rw [h1, findSector_map t.grid
    (fun sec => if sec.row = r ∧ sec.col = c then f sec else sec)
    (fun x => by by_cases hx : x.row = r ∧ x.col = c <;> simp [hx, (hf x).1, (hf x).2]) r c,
    hfind]
  simp [hrc.1, hrc.2]

/-- Result-shape probes used by the concrete counterexamples. -/
def isRepelled (o : ExecOutcome) : Bool :=
  match o with
  | .ok _ (.repelled _ _ _) => true
  | _ => false

def isCaptured (o : ExecOutcome) : Bool :=
  match o with
  | .ok _ (.captured _ _ _ _) => true
  | _ => false

/-- The defense of sector `(r,c)` after an execution outcome. -/
def targetDefenseAfter (o : ExecOutcome) (r c : Int) : Option Int :=
  match o with
  | .ok s _ => (findSector s.grid r c).map (fun x => x.defense)
  | .fail _ => none

/-- A grid whose neutral target sector has defense 30, so an intensity-1
attack is repelled. -/
def highDefGrid : List Sector :=
  [⟨0, 0, some "A", 10, 10, false, false⟩,
   ⟨0, 1, none, 8, 30, false, false⟩,
   ⟨1, 0, some "B", 10, 10, false, false⟩]

def testMatchHighDef : GameState :=
  ⟨"M", [playerA, playerB], highDefGrid, 0, "A", "active", none, []⟩

/-- C6, claim as stated, is false in one respect: a repelled attack drops
the target's defense by the *same* fixed amount as a successful capture
(both subtract 2 — only the floors differ, 1 versus 5), not by a smaller
amount.  Concretely: a repelled attack takes defense 30 to 28 (drop 2) and
a capture takes defense 10 to 8 (also drop 2). -/
theorem c6_cex_defense_drop_not_smaller :
    isRepelled (executeConquer testMatchHighDef "A" (some (0, 1)) 1) = true ∧
    targetDefenseAfter (executeConquer testMatchHighDef "A" (some (0, 1)) 1) 0 1 =
      some 28 ∧
    isCaptured (executeConquer testMatch "A" (some (0, 1)) 1) = true ∧
    targetDefenseAfter (executeConquer testMatch "A" (some (0, 1)) 1) 0 1 = some 8 := by
  decide

/-- C6 (amended): when an attack does not exceed the defense power, the
sector's ownership (and population) are unchanged, the attacker still pays
the full energy cost `⌊25 × intensity × costMultiplier⌋`, and the defense
is set to `max 1 (defense − 2)` — the same fixed decrement 2 as a capture,
but floored at 1 instead of 5. -/
theorem c6_conquer_repelled (s : GameState) (a : String) (rr cc : Int) (i : ℚ)
    (P : Player) (sec : Sector) (s' : GameState) (ap dp : ℚ) (dr : Int)
    (hgp : s.getPlayer a = some P) (hfind : findSector s.grid rr cc = some sec)
    (h : executeConquer s a (some (rr, cc)) i = .ok s' (.repelled ap dp dr)) :
    s'.getPlayer a =
      some { P with
             energy := P.energy - jfloor (25 * i * (if P.hasTech "BLITZ" then (3/5 : ℚ) else 1)) } ∧
    (∃ sec', findSector s'.grid rr cc = some sec' ∧ sec'.owner = sec.owner ∧
      sec'.defense = max 1 (sec.defense - 2) ∧ sec'.population = sec.population) ∧
    dr = 2 := by
  have hb : (Option.some (rr, cc)).bind (fun t => findSector s.grid t.1 t.2) = some sec := by
    simpa using hfind
  have hrc : sec.row = rr ∧ sec.col = cc := by
    have h0 : List.find? (fun x => decide (x.row = rr ∧ x.col = cc)) s.grid = some sec := hfind
    simpa using List.find?_some h0
  by_cases hblitz : P.hasTech "BLITZ" = true
  · simp only [executeConquer, hgp, hb, hblitz, if_true] at h ⊢
    repeat' split at h
    all_goals try exact ExecOutcome.noConfusion h
    all_goals injection h with hs hr
    all_goals try exact ExecResult.noConfusion hr
    injection hr with hap hdp hdr
    rw [← hs, hrc.1, hrc.2]
    refine ⟨?_, ?_, hdr.symm⟩
    · rw [getPlayer_updateSector]
      refine getPlayer_updatePlayer_eq s a _ P hgp ?_
      exact fun p => rfl
    · refine ⟨_, findSector_updateSector_eq _ rr cc _ sec ?_ ?_, rfl, rfl, rfl⟩
      · exact hfind
      · exact fun x => ⟨rfl, rfl⟩
  · simp only [executeConquer, hgp, hb, hblitz, Bool.false_eq_true, if_false] at h ⊢
    repeat' split at h
    all_goals try exact ExecOutcome.noConfusion h
    all_goals injection h with hs hr
    all_goals try exact ExecResult.noConfusion hr
    injection hr with hap hdp hdr
    rw [← hs, hrc.1, hrc.2]
    refine ⟨?_, ?_, hdr.symm⟩
    · rw [getPlayer_updateSector]
      refine getPlayer_updatePlayer_eq s a _ P hgp ?_
      exact fun p => rfl
    · refine ⟨_, findSector_updateSector_eq _ rr cc _ sec ?_ ?_, rfl, rfl, rfl⟩
      · exact hfind
      · exact fun x => ⟨rfl, rfl⟩

/-- The state a repelled intensity-1 attack on the high-defense fixture
produces. -/
def repelResultState : GameState :=
  match executeConquer testMatchHighDef "A" (some (0, 1)) 1 with
  | .ok s _ => s
  | .fail _ => testMatchHighDef

/-- Witness for C6 (amended) at a concrete input: the repelled attack on
the defense-30 sector leaves ownership and population alone, deducts the
full 25-energy cost, and sets defense to `max 1 (30 − 2) = 28`. -/
theorem c6_conquer_repelled_witness :
    repelResultState.getPlayer "A" =
      some { playerA with
             energy := playerA.energy -
               jfloor (25 * 1 * (if playerA.hasTech "BLITZ" then (3/5 : ℚ) else 1)) } ∧
    (∃ sec', findSector repelResultState.grid 0 1 = some sec' ∧
      sec'.owner = (⟨0, 1, none, 8, 30, false, false⟩ : Sector).owner ∧
      sec'.defense = max 1 ((⟨0, 1, none, 8, 30, false, false⟩ : Sector).defense - 2) ∧
      sec'.population = (⟨0, 1, none, 8, 30, false, false⟩ : Sector).population) ∧
    (2 : Int) = 2 :=
  c6_conquer_repelled testMatchHighDef "A" 0 1 1 playerA ⟨0, 1, none, 8, 30, false, false⟩
    repelResultState 18 34 2 (by decide) (by decide) (by decide)

/-! ## C10 — the attack intensity is never validated -/

/-- The acting player's energy after an execution outcome. -/
def playerEnergyAfter (o : ExecOutcome) (a : String) : Option Int :=
  match o with
  | .ok s _ => (s.getPlayer a).map (fun p => p.energy)
  | .fail _ => none

/-- C10: `processMove` never validates the Attack intensity.  The
`intensity || 1` coercion turns an absent or zero intensity into 1 and
passes every other number through unchanged; a negative intensity yields a
negative floored cost (−25 at intensity −1), which passes the
`energy < cost` precondition and *increases* the attacker's energy
(100 → 125 on the test fixture); a fractional intensity (1/2) is likewise
accepted as-is (cost ⌊12.5⌋ = 12, energy 100 → 88). -/
theorem c10_intensity_unvalidated :
    effectiveIntensity none = 1 ∧ effectiveIntensity (some 0) = 1 ∧
    (∀ i : ℚ, i ≠ 0 → effectiveIntensity (some i) = i) ∧
    jfloor (25 * (-1 : ℚ) * 1) = -25 ∧
    isRepelled (executeConquer testMatch "A" (some (0, 1)) (-1)) = true ∧
    playerEnergyAfter (executeConquer testMatch "A" (some (0, 1)) (-1)) "A" = some 125 ∧
    playerEnergyAfter (executeConquer testMatch "A" (some (0, 1)) (1/2)) "A" = some 88 := by
  refine ⟨rfl, rfl, ?_, by decide, by decide, by decide, by decide⟩
  intro i hi
  simp [effectiveIntensity, hi]

/-- Witness for C10's quantified part: a nonzero intensity (here −1) is
passed through `intensity || 1` unchanged. -/
theorem c10_intensity_unvalidated_witness : effectiveIntensity (some (-1)) = -1 :=
  c10_intensity_unvalidated.2.2.1 (-1) (by norm_num)

/-! ## C1 — challenge consumption in `handleMove` -/

/-- A digest oracle under which every hash "has four leading zeros", so
any non-negative integer nonce verifies (a negative nonce still fails the
integer check inside `verifyProof`). -/
def shaConst : String → String := fun _ => "0000"

/-- Server registries holding the test match under id `M` and one
outstanding challenge `PFX` for agent `A`. -/
def serverFixture : ServerState := ⟨[("M", testMatch)], [("A", ⟨"PFX", 4, "M"⟩)]⟩

/-- A well-formed move message for match `M` carrying nonce `n`. -/
def moveMsg (n : ℚ) : MoveMessage :=
  ⟨"M", "thinking hard about strategy", some skipCommand, some n⟩

/-- C1, claim as stated, is false: an *invalid* nonce does not consume the
Challenge.  The first submission with the invalid nonce −1 is rejected
with `PROOF_OF_WORK_INVALID` and the outstanding set is unchanged; a
second submission against the very same Challenge (now with the valid
nonce 7) is not rejected with challenge-missing — it goes through. -/
theorem c1_cex_invalid_nonce_not_consumed :
    (handleMove shaConst serverFixture "A" (moveMsg (-1)) 5).2 = .rejectedPowInvalid ∧
    (handleMove shaConst serverFixture "A" (moveMsg (-1)) 5).1 = serverFixture ∧
    (handleMove shaConst (handleMove shaConst serverFixture "A" (moveMsg (-1)) 5).1 "A"
      (moveMsg 7) 6).2 ≠ .errNoChallenge := by
  decide

/-- C1 (amended): the Challenge is single-use with respect to *successful*
verification: the first submission whose nonce passes `verifyProof`
deletes the Challenge from the outstanding set (whatever happens to the
command afterwards), and any later submission by that participant is
rejected with the challenge-missing error until a fresh Challenge is
issued.  (A submission whose nonce fails verification leaves the
Challenge outstanding and may be retried, contrary to the original
claim.) -/
theorem c1_challenge_single_use (sha : String → String) (st : ServerState) (a : String)
    (msg : MoveMessage) (now : Int) (mv : Command) (ch : Challenge) (n : ℚ)
    (hmv : msg.move = some mv) (hmid : msg.matchId ≠ "")
    (hch : mapLookup st.activeChallenges a = some ch) (hmatch : ch.matchId = msg.matchId)
    (hn : msg.nonce = some n) (hv : verifyProof sha ch.pfx ch.difficulty n = true) :
    mapLookup (handleMove sha st a msg now).1.activeChallenges a = none ∧
    ∀ sha2 msg2 now2, msg2.move.isSome → msg2.matchId ≠ "" →
      (handleMove sha2 (handleMove sha st a msg now).1 a msg2 now2).2 = .errNoChallenge := by
  have hch1 : (handleMove sha st a msg now).1.activeChallenges =
      mapDelete st.activeChallenges a := by
    simp only [handleMove, hmv, hch, hn]
    rw [if_neg hmid, if_neg (not_not_intro hmatch), if_neg (not_not_intro hv)]
    split
    · rfl
    · split
      · rfl
      · split
        · rfl
        · rfl
  have hnone : mapLookup (handleMove sha st a msg now).1.activeChallenges a = none := by
    rw [hch1]
    exact mapLookup_mapDelete_self _ _
  refine ⟨hnone, ?_⟩
  intro sha2 msg2 now2 h1 h2
  obtain ⟨mv2, hmv2⟩ := Option.isSome_iff_exists.mp h1
  generalize hgen : (handleMove sha st a msg now).1 = st2
  rw [hgen] at hnone
  simp only [handleMove, hmv2, hnone, if_neg h2]

/-- Witness for C1 (amended) at a concrete input: the valid-nonce
submission consumes the challenge and the immediate resubmission gets
challenge-missing. -/
theorem c1_challenge_single_use_witness :
    mapLookup (handleMove shaConst serverFixture "A" (moveMsg 7) 0).1.activeChallenges "A" =
      none ∧
    (handleMove shaConst (handleMove shaConst serverFixture "A" (moveMsg 7) 0).1 "A"
      (moveMsg 7) 1).2 = .errNoChallenge := by
  have h := c1_challenge_single_use shaConst serverFixture "A" (moveMsg 7) 0 skipCommand
    ⟨"PFX", 4, "M"⟩ 7 rfl (by decide) (by decide) rfl rfl (by decide)
  exact ⟨h.1, h.2 shaConst (moveMsg 7) 1 (by decide) (by decide)⟩

/-! ## C9 — valid nonce, rejected command -/

/-- C9: when a submission passes proof-of-work verification but the
command is then rejected (monologue under 10 characters after trimming,
wrong turn, unknown action, or an action-specific precondition failure,
and likewise a missing match), the match state is left completely
unchanged — `processMove` rejections return the state untouched and the
`activeMatches` registry is not written — yet the Challenge was already
consumed by the successful verification, so any resubmission is rejected
with the challenge-missing error until a fresh Challenge is issued. -/
theorem c9_reject_after_consumption (sha : String → String) (st : ServerState) (a : String)
    (msg : MoveMessage) (now : Int) (mv : Command) (ch : Challenge) (n : ℚ)
    (hmv : msg.move = some mv) (hmid : msg.matchId ≠ "")
    (hch : mapLookup st.activeChallenges a = some ch) (hmatch : ch.matchId = msg.matchId)
    (hn : msg.nonce = some n) (hv : verifyProof sha ch.pfx ch.difficulty n = true)
    (hrej : ∀ r u v, (handleMove sha st a msg now).2 ≠ .moveAccepted r u v) :
    (∀ gs a2 c now2 e, (processMove gs a2 c now2).2 = .rejected e →
      (processMove gs a2 c now2).1 = gs) ∧
    (handleMove sha st a msg now).1.activeMatches = st.activeMatches ∧
    mapLookup (handleMove sha st a msg now).1.activeChallenges a = none ∧
    ∀ sha2 msg2 now2, msg2.move.isSome → msg2.matchId ≠ "" →
      (handleMove sha2 (handleMove sha st a msg now).1 a msg2 now2).2 = .errNoChallenge := by
  have hsplit : ((handleMove sha st a msg now).1.activeMatches = st.activeMatches) ∨
      (∃ r u v, (handleMove sha st a msg now).2 = .moveAccepted r u v) := by
    simp only [handleMove, hmv, hch, hn]
    rw [if_neg hmid, if_neg (not_not_intro hmatch), if_neg (not_not_intro hv)]
    split
    · exact Or.inl rfl
    · split
      · exact Or.inl rfl
      · split
        · exact Or.inl rfl
        · exact Or.inr ⟨_, _, _, rfl⟩
  have hch1 : (handleMove sha st a msg now).1.activeChallenges =
      mapDelete st.activeChallenges a := by
    simp only [handleMove, hmv, hch, hn]
    rw [if_neg hmid, if_neg (not_not_intro hmatch), if_neg (not_not_intro hv)]
    split
    · rfl
    · split
      · rfl
      · split
        · rfl
        · rfl
  have hnone : mapLookup (handleMove sha st a msg now).1.activeChallenges a = none := by
    rw [hch1]
    exact mapLookup_mapDelete_self _ _
  refine ⟨fun gs a2 c now2 e h => processMove_rejected_state gs a2 c now2 e h,
    hsplit.resolve_right ?_, hnone, ?_⟩
  · rintro ⟨r, u, v, hacc⟩
    exact hrej r u v hacc
  · intro sha2 msg2 now2 h1 h2
    obtain ⟨mv2, hmv2⟩ := Option.isSome_iff_exists.mp h1
    generalize hgen : (handleMove sha st a msg now).1 = st2
    rw [hgen] at hnone
    simp only [handleMove, hmv2, hnone, if_neg h2]

/-- A message whose nonce verifies but whose monologue is too short. -/
def msgShort : MoveMessage := ⟨"M", "short", some skipCommand, some 7⟩

/-- Witness for C9 at a concrete input: the short-monologue submission is
rejected with the match registry untouched, the challenge is gone, and the
resubmission gets challenge-missing. -/
theorem c9_reject_after_consumption_witness :
    (handleMove shaConst serverFixture "A" msgShort 0).1.activeMatches =
      serverFixture.activeMatches ∧
    mapLookup (handleMove shaConst serverFixture "A" msgShort 0).1.activeChallenges "A" =
      none ∧
    (handleMove shaConst (handleMove shaConst serverFixture "A" msgShort 0).1 "A"
      (moveMsg 7) 1).2 = .errNoChallenge := by
  have h := c9_reject_after_consumption shaConst serverFixture "A" msgShort 0 skipCommand
    ⟨"PFX", 4, "M"⟩ 7 rfl (by decide) (by decide) rfl rfl (by decide)
    (fun r u v hacc => by
      rw [show (handleMove shaConst serverFixture "A" msgShort 0).2 =
        MoveResponse.errMonologueTooShort from by decide] at hacc
      exact MoveResponse.noConfusion hacc)
  exact ⟨h.2.1, h.2.2.1, h.2.2.2 shaConst (moveMsg 7) 1 (by decide) (by decide)⟩

/-! ## C2 — late submissions after a turn timeout -/

/-- Inversion: an accepted `handleMove` presupposes a move object, a match
found under the message's match id, and an accepting `processMove` run on
that match state. -/
theorem handleMove_accepted_inv (sha : String → String) (st : ServerState) (a : String)
    (msg : MoveMessage) (now : Int) (r : ExecResult) (u : UpkeepReport)
    (v : Option (String × String))
    (h : (handleMove sha st a msg now).2 = .moveAccepted r u v) :
    ∃ mv gs gs', msg.move = some mv ∧
      mapLookup st.activeMatches msg.matchId = some gs ∧
      processMove gs a mv now = (gs', .accepted r u v) := by
  cases hmv : msg.move with
  | none =>
    simp only [handleMove, hmv] at h
    simp at h
  | some mv =>
    by_cases hmid : msg.matchId = ""
    · simp only [handleMove, hmv, if_pos hmid] at h
      simp at h
    · cases hch2 : mapLookup st.activeChallenges a with
      | none =>
        simp only [handleMove, hmv, if_neg hmid, hch2] at h
        simp at h
      | some ch =>
        by_cases hcm : ch.matchId ≠ msg.matchId
        · simp only [handleMove, hmv, if_neg hmid, hch2, if_pos hcm] at h
          simp at h
        · cases hn2 : msg.nonce with
          | none =>
            simp only [handleMove, hmv, if_neg hmid, hch2, if_neg hcm, hn2] at h
            simp at h
          | some n =>
            by_cases hv2 : ¬ verifyProof sha ch.pfx ch.difficulty n = true
            · simp only [handleMove, hmv, if_neg hmid, hch2, if_neg hcm, hn2, if_pos hv2] at h
              simp at h
            · by_cases hmon : (jsTrim msg.monologue).length < 10
              · simp only [handleMove, hmv, if_neg hmid, hch2, if_neg hcm, hn2, if_neg hv2,
                  if_pos hmon] at h
                simp at h
              · cases hgs2 : mapLookup st.activeMatches msg.matchId with
                | none =>
                  simp only [handleMove, hmv, if_neg hmid, hch2, if_neg hcm, hn2, if_neg hv2,
                    if_neg hmon, hgs2] at h
                  simp at h
                | some gs =>
                  simp only [handleMove, hmv, if_neg hmid, hch2, if_neg hcm, hn2, if_neg hv2,
                    if_neg hmon, hgs2] at h
                  cases hpm : processMove gs a mv now with
                  | mk gs' res =>
                    rw [hpm] at h
                    cases res with
                    | rejected e => simp at h
                    | accepted r' u' v' =>
                      simp at h
                      obtain ⟨h1, h2, h3⟩ := h
                      exact ⟨mv, gs, gs', rfl, rfl, by rw [hpm, h1, h2, h3]⟩

theorem startTurnTimer_matches (sha : String → String) (st : ServerState)
    (m who : String) (now : Int) :
    (startTurnTimer sha st m who now).activeMatches = st.activeMatches := rfl

theorem startTurnTimer_challenges_lookup_ne (sha : String → String) (st : ServerState)
    (m who : String) (now : Int) (x : String) (hx : x ≠ who) :
    mapLookup (startTurnTimer sha st m who now).activeChallenges x =
      mapLookup st.activeChallenges x := by
  unfold startTurnTimer
  exact mapLookup_mapSet_ne _ who x _ hx

/-- C2, claim as stated, is false: the timeout handler never deletes the
stalled participant's Challenge.  On the fixture, after
`handleTurnTimeout` fires for `A`, `A` still holds the very same
outstanding Challenge, and a late (perfectly valid) submission by `A` is
rejected with "Not your turn" — not with the challenge-missing error. -/
theorem c2_cex_challenge_survives_timeout :
    mapLookup (handleTurnTimeout shaConst serverFixture "M" "A" 5).activeChallenges "A" =
      some ⟨"PFX", 4, "M"⟩ ∧
    (handleMove shaConst (handleTurnTimeout shaConst serverFixture "M" "A" 5) "A"
      (moveMsg 7) 6).2 = .moveRejected "Not your turn" := by
  decide

/-- C2 (amended): a submission arriving after the turn-deadline timer has
fired and forced a pass is indeed rejected and can never be accepted, but
the mechanism is the turn check, not a missing Challenge: the timeout
handler leaves the stalled participant's outstanding Challenge untouched
(it only issues a fresh one to the *other* participant), and the late
submission is rejected because the forced pass advanced `currentPlayer`
to the other participant, so `processMove` answers "Not your turn" (or an
earlier gate fails).  This is what prevents double-processing a turn. -/
theorem c2_late_submission_rejected (sha : String → String) (st : ServerState)
    (m a b : String) (gs : GameState) (now : Int)
    (hgs : mapLookup st.activeMatches m = some gs)
    (hact : gs.status = "active") (hids : gs.players.map (fun p => p.id) = [a, b])
    (hab : a ≠ b) (hcur : gs.currentPlayer = a) :
    mapLookup (handleTurnTimeout sha st m a now).activeChallenges a =
      mapLookup st.activeChallenges a ∧
    ∀ sha2 msg2 now2 r u v, msg2.matchId = m →
      (handleMove sha2 (handleTurnTimeout sha st m a now) a msg2 now2).2 ≠
        .moveAccepted r u v := by
  have hpm2 : (processMove gs a ⟨"SKIP", none, none, none⟩ now).2 =
      .accepted .skipped (applyUpkeep gs a).2
        (checkVictory (logPush (applyUpkeep gs a).1 a ⟨"SKIP", none, none, none⟩ .skipped
          (applyUpkeep gs a).2 now)) := by
    unfold processMove
    rw [if_neg (not_not_intro hcur), if_neg (not_not_intro hact)]
    rfl
  have hpair : processMove gs a ⟨"SKIP", none, none, none⟩ now =
      ((processMove gs a ⟨"SKIP", none, none, none⟩ now).1,
        .accepted .skipped (applyUpkeep gs a).2
          (checkVictory (logPush (applyUpkeep gs a).1 a ⟨"SKIP", none, none, none⟩ .skipped
            (applyUpkeep gs a).2 now))) := by
    rw [← hpm2]
  obtain ⟨_, _, _, hnext, _, _⟩ :=
    processMove_accepted_shape gs a ⟨"SKIP", none, none, none⟩ now _ _ _ _ hpair
  rw [hids, nextOf_pair_fst] at hnext
  have ht : handleTurnTimeout sha st m a now =
      (if (processMove gs a ⟨"SKIP", none, none, none⟩ now).1.status = "active" then
        startTurnTimer sha
          { st with activeMatches :=
              mapSet st.activeMatches m (processMove gs a ⟨"SKIP", none, none, none⟩ now).1 }
          m (processMove gs a ⟨"SKIP", none, none, none⟩ now).1.currentPlayer now
      else
        { st with activeMatches :=
            mapSet st.activeMatches m (processMove gs a ⟨"SKIP", none, none, none⟩ now).1 }) := by
    simp only [handleTurnTimeout, hgs]
    rw [if_neg (not_not_intro hact)]
  have hx : a ≠ (processMove gs a ⟨"SKIP", none, none, none⟩ now).1.currentPlayer := by
    rw [hnext]
    exact hab
  constructor
  · rw [ht]
    by_cases hstat : (processMove gs a ⟨"SKIP", none, none, none⟩ now).1.status = "active"
    · rw [if_pos hstat, startTurnTimer_challenges_lookup_ne _ _ _ _ _ _ hx]
    · rw [if_neg hstat]
  · intro sha2 msg2 now2 r u v hmid2 hacc
    obtain ⟨mv2, gs2, gs2', hmv2, hgs2, hpmacc⟩ :=
      handleMove_accepted_inv sha2 _ a msg2 now2 r u v hacc
    rw [hmid2] at hgs2
    have hmat : mapLookup (handleTurnTimeout sha st m a now).activeMatches m =
        some (processMove gs a ⟨"SKIP", none, none, none⟩ now).1 := by
      rw [ht]
      by_cases hstat : (processMove gs a ⟨"SKIP", none, none, none⟩ now).1.status = "active"
      · rw [if_pos hstat, startTurnTimer_matches]
        exact mapLookup_mapSet_self _ _ _
      · rw [if_neg hstat]
        exact mapLookup_mapSet_self _ _ _
    rw [hmat] at hgs2
    have hgs2' := Option.some.inj hgs2
    obtain ⟨hcur2, _⟩ := processMove_accepted_shape gs2 a mv2 now2 gs2' r u v hpmacc
    rw [← hgs2'] at hcur2
    rw [hnext] at hcur2
    exact hab hcur2.symm

/-- Witness for C2 (amended) at a concrete input: after the fixture
timeout, `A`'s challenge lookup is unchanged and a perfectly valid late
submission is not accepted. -/
theorem c2_late_submission_rejected_witness :
    mapLookup (handleTurnTimeout shaConst serverFixture "M" "A" 5).activeChallenges "A" =
      mapLookup serverFixture.activeChallenges "A" ∧
    (handleMove shaConst (handleTurnTimeout shaConst serverFixture "M" "A" 5) "A"
      (moveMsg 7) 6).2 ≠ .moveAccepted .skipped ⟨10, 1, 20, 5, -15, 85, 0⟩ none := by
  have h := c2_late_submission_rejected shaConst serverFixture "M" "A" "B" testMatch 5
    (by decide) rfl (by decide) (by decide) rfl
  exact ⟨h.1, h.2 shaConst (moveMsg 7) 6 .skipped ⟨10, 1, 20, 5, -15, 85, 0⟩ none rfl⟩

/-! ## C7 — matchmaker pairing -/

/-- `Math.abs(p1.elo_rating - p2.elo_rating)`. -/
def diffI (p q : QueueEntry) : Int := ((p.eloRating - q.eloRating).natAbs : Int)

theorem scanBest_sound (p1 : QueueEntry) :
    ∀ (l : List QueueEntry) (matched : List String) (best : Option (QueueEntry × Int))
      (q : QueueEntry) (d : Int),
    (∀ b1 b2, best = some (b1, b2) → b2 = diffI p1 b1 ∧ b2 ≤ p1.searchRange ∧
      b2 ≤ b1.searchRange) →
    scanBest p1 l matched best = some (q, d) →
    d = diffI p1 q ∧ d ≤ p1.searchRange ∧ d ≤ q.searchRange := by
  intro l
  induction l with
  | nil =>
    intro matched best q d hbest h
    simp only [scanBest] at h
    exact hbest q d h
  | cons e l ih =>
    intro matched best q d hbest h
    simp only [scanBest] at h
    by_cases hm : e.agentId ∈ matched
    · rw [if_pos hm] at h
      exact ih matched best q d hbest h
    · rw [if_neg hm] at h
      by_cases hcond : ((((p1.eloRating - e.eloRating).natAbs : Int)) ≤ p1.searchRange ∧
          (((p1.eloRating - e.eloRating).natAbs : Int)) ≤ e.searchRange ∧
          beatsBest best (((p1.eloRating - e.eloRating).natAbs : Int)) = true)
      · rw [if_pos hcond] at h
        refine ih matched _ q d ?_ h
        intro b1 b2 hb
        have hb' : e = b1 ∧ (((p1.eloRating - e.eloRating).natAbs : Int)) = b2 := by
          simpa using hb
        obtain ⟨hb1, hb2⟩ := hb'
        refine ⟨?_, ?_, ?_⟩
        · rw [← hb1, ← hb2]
          rfl
        · rw [← hb2]
          exact hcond.1
        · rw [← hb1, ← hb2]
          exact hcond.2.1
      · rw [if_neg hcond] at h
        exact ih matched best q d hbest h

theorem scanBest_min (p1 : QueueEntry) :
    ∀ (l : List QueueEntry) (matched : List String) (best : Option (QueueEntry × Int))
      (q : QueueEntry) (d : Int),
    scanBest p1 l matched best = some (q, d) →
    (∀ b1 b2, best = some (b1, b2) → d ≤ b2) ∧
    (∀ e ∈ l, e.agentId ∉ matched → diffI p1 e ≤ p1.searchRange →
      diffI p1 e ≤ e.searchRange → d ≤ diffI p1 e) := by
  intro l
  induction l with
  | nil =>
    intro matched best q d h
    simp only [scanBest] at h
    constructor
    · intro b1 b2 hb
      rw [h] at hb
      have : q = b1 ∧ d = b2 := by simpa using hb
      rw [← this.2]
    · intro e he
      simp at he
  | cons e l ih =>
    intro matched best q d h
    simp only [scanBest] at h
    by_cases hm : e.agentId ∈ matched
    · rw [if_pos hm] at h
      obtain ⟨hbest, helem⟩ := ih matched best q d h
      refine ⟨hbest, ?_⟩
      intro e' he' hnm hr1 hr2
      rcases List.mem_cons.mp he' with rfl | htl
      · exact absurd hm hnm
      · exact helem e' htl hnm hr1 hr2
    · rw [if_neg hm] at h
      by_cases hcond : ((((p1.eloRating - e.eloRating).natAbs : Int)) ≤ p1.searchRange ∧
          (((p1.eloRating - e.eloRating).natAbs : Int)) ≤ e.searchRange ∧
          beatsBest best (((p1.eloRating - e.eloRating).natAbs : Int)) = true)
      · rw [if_pos hcond] at h
        obtain ⟨hbest, helem⟩ := ih matched _ q d h
        have hde : d ≤ diffI p1 e := hbest e _ rfl
        constructor
        · intro b1 b2 hb
          have hbeats := hcond.2.2
          rw [hb] at hbeats
          simp only [beatsBest, decide_eq_true_eq] at hbeats
          exact le_trans hde (le_of_lt hbeats)
        · intro e' he' hnm hr1 hr2
          rcases List.mem_cons.mp he' with rfl | htl
          · exact hde
          · exact helem e' htl hnm hr1 hr2
      · rw [if_neg hcond] at h
        obtain ⟨hbest, helem⟩ := ih matched best q d h
        refine ⟨hbest, ?_⟩
        intro e' he' hnm hr1 hr2
        rcases List.mem_cons.mp he' with rfl | htl
        · -- the head was eligible but the condition failed: best must beat it
          cases hbb : best with
          | none =>
            exfalso
            apply hcond
            refine ⟨hr1, hr2, ?_⟩
            rw [hbb]
            rfl
          | some b =>
            have hbeats : ¬ (diffI p1 e' < b.2) := by
              intro hlt
              apply hcond
              refine ⟨hr1, hr2, ?_⟩
              rw [hbb]
              simp only [beatsBest, decide_eq_true_eq]
              exact hlt
            have hble : b.2 ≤ diffI p1 e' := not_lt.mp hbeats
            exact le_trans (hbest b.1 b.2 (by rw [hbb])) hble
        · exact helem e' htl hnm hr1 hr2

theorem runPairing_sound :
    ∀ (l : List QueueEntry) (matched : List String) (p q : QueueEntry) (d : Int),
    (p, q, d) ∈ runPairing l matched →
    d = diffI p q ∧ d ≤ p.searchRange ∧ d ≤ q.searchRange := by
  intro l
  induction l with
  | nil =>
    intro matched p q d h
    simp [runPairing] at h
  | cons e l ih =>
    intro matched p q d h
    simp only [runPairing] at h
    by_cases hm : e.agentId ∈ matched
    · rw [if_pos hm] at h
      exact ih matched p q d h
    · rw [if_neg hm] at h
      cases hsb : scanBest e l matched none with
      | none =>
        rw [hsb] at h
        exact ih matched p q d h
      | some qd =>
        obtain ⟨q1, d1⟩ := qd
        rw [hsb] at h
        rcases List.mem_cons.mp h with hhd | htl
        · have hpq : p = e ∧ q = q1 ∧ d = d1 := by simpa using hhd
          obtain ⟨hp, hq, hd⟩ := hpq
          rw [hp, hq, hd]
          exact scanBest_sound e l matched none q1 d1 (fun b1 b2 hb => by cases hb) hsb
        · exact ih _ p q d htl

/-- The two v2 fixture entries: ratings 1000 apart, ranges 100. -/
def queueP : QueueEntry := ⟨"P", 1000, 0, 100⟩

def queueQ : QueueEntry := ⟨"Q", 2000, 0, 100⟩

/-- C7, claim as stated, is false for the async (v2) matchmaker, one of
the two pairing routines in the repository: `runMatchmaking` v2 pairs the
first two waiting agents with no rating check at all, so two entries whose
rating difference (1000) vastly exceeds both search ranges (100) still get
paired. -/
theorem c7_cex_v2_pairs_outside_ranges :
    runMatchmakingV2Select [queueP, queueQ] = some (queueP, queueQ) ∧
    ¬ (diffI queueP queueQ ≤ queueP.searchRange ∧
       diffI queueP queueQ ≤ queueQ.searchRange) := by
  decide

/-- C7 (amended): the Elo matchmaker (`src/server/matchmaker.js`) does
satisfy the claim: every pair it forms has rating difference equal to
`|Δelo|`, within *both* entries' current (expanded) search ranges, and
that difference is minimal among the eligible later entries in wait order;
search ranges grow as `min(100 + 50·⌊⌊waitms/1000⌋/10⌋, 500)`.  The async
v2 matchmaker, however, pairs the first two waiting agents without any
range check (see the counterexample). -/
theorem c7_matchmaker_pairing :
    (∀ now waiting (p q : QueueEntry) (d : Int),
      (p, q, d) ∈ runMatchmakingV1 now waiting →
      d = diffI p q ∧ d ≤ p.searchRange ∧ d ≤ q.searchRange) ∧
    (∀ (p1 : QueueEntry) (l : List QueueEntry) (matched : List String)
      (q : QueueEntry) (d : Int),
      scanBest p1 l matched none = some (q, d) →
      ∀ e ∈ l, e.agentId ∉ matched → diffI p1 e ≤ p1.searchRange →
        diffI p1 e ≤ e.searchRange → d ≤ diffI p1 e) ∧
    (∀ (now : Int) (e : QueueEntry), (expandRange now e).searchRange =
      min (100 + (Int.fdiv (Int.fdiv (now - e.queuedAt) 1000) 10) * 50) 500) := by
  refine ⟨?_, ?_, fun now e => rfl⟩
  · intro now waiting p q d h
    exact runPairing_sound _ [] p q d h
  · intro p1 l matched q d h
    exact (scanBest_min p1 l matched none q d h).2

/-- Witness for C7 (amended) at a concrete input: entries 50 Elo apart
with range 100 pair up at difference 50, within both ranges. -/
theorem c7_matchmaker_pairing_witness :
    (50 : Int) = diffI (expandRange 0 ⟨"P", 1000, 0, 100⟩) (expandRange 0 ⟨"Q", 1050, 0, 100⟩) ∧
    (50 : Int) ≤ (expandRange 0 ⟨"P", 1000, 0, 100⟩).searchRange ∧
    (50 : Int) ≤ (expandRange 0 ⟨"Q", 1050, 0, 100⟩).searchRange :=
  c7_matchmaker_pairing.1 0 [⟨"P", 1000, 0, 100⟩, ⟨"Q", 1050, 0, 100⟩]
    (expandRange 0 ⟨"P", 1000, 0, 100⟩) (expandRange 0 ⟨"Q", 1050, 0, 100⟩) 50 (by decide)

end AlignmentProtocol
